import Mathlib

set_option maxHeartbeats 1600000
set_option maxRecDepth 8000

namespace FaServiceCore

/-- JSON values as stored and diffed by the audit subsystem (`src/core/audit.py`).
Objects are association lists of string keys to values; Python `dict` equality is
key-set based, so well-formed documents are kept in the canonical form where every
object's keys are strictly sorted (see `Json.Canon`). -/
inductive Json where
  | null : Json
  | bool (b : Bool) : Json
  | num (n : Int) : Json
  | str (s : String) : Json
  | arr (elems : List Json) : Json
  | obj (fields : List (String × Json)) : Json
  deriving Repr

namespace Json

mutual
/-- Structural equality test on JSON values (Python `==` on canonical
documents). -/
def beq : Json → Json → Bool
  | .obj fs, .obj gs => beqFields fs gs
  | .arr xs, .arr ys => beqList xs ys
  | .str x, .str y => x == y
  | .num x, .num y => x == y
  | .bool x, .bool y => x == y
  | .null, .null => true
  | _, _ => false

/-- Elementwise equality of two value lists. -/
def beqList (xs ys : List Json) : Bool :=
  match xs, ys with
  | [], [] => true
  | x :: xt, y :: yt => beq x y && beqList xt yt
  | _, _ => false

/-- Pairwise equality of two field lists, keys and values both. -/
def beqFields (fs gs : List (String × Json)) : Bool :=
  match fs, gs with
  | [], [] => true
  | (k, v) :: ft, (l, w) :: gt => (k == l && beq v w) && beqFields ft gt
  | _, _ => false
end


/-- Key list of an object's field list. -/
def keysOf (fs : List (String × Json)) : List String := fs.map Prod.fst

/-- First value bound to key `k` in an object field list (Python `dict` lookup). -/
def lookupObj (k : String) : List (String × Json) → Option Json
  | [] => none
  | (k', v) :: rest => if k' = k then some v else lookupObj k rest

end Json

/-- Strict order on characters by code point. -/
def charLtB (c d : Char) : Bool := c.toNat < d.toNat

/-- Lexicographic strict order on character lists. -/
def chListLtB : List Char → List Char → Bool
  | [], [] => false
  | [], _ :: _ => true
  | _ :: _, [] => false
  | c :: cs, d :: ds => charLtB c d || (c = d && chListLtB cs ds)

/-- Lexicographic strict order on strings (code-point order), the key order of
canonical JSON objects. -/
def strLtB (s t : String) : Bool := chListLtB s.data t.data

namespace Json

/-- Keys strictly sorted check, executable. -/
def sortedKeysB : List String → Bool
  | [] => true
  | [_] => true
  | a :: b :: rest => strLtB a b && sortedKeysB (b :: rest)

mutual
/-- Canonical-form check: every object has strictly sorted (hence duplicate-free)
keys, recursively.  This is the canonical representative of a Python `dict`
under order-insensitive `dict` equality. -/
def canonB : Json → Bool
  | .null => true
  | .bool _ => true
  | .num _ => true
  | .str _ => true
  | .arr xs => canonArrB xs
  | .obj fs => sortedKeysB (keysOf fs) && canonFieldsB fs

def canonArrB : List Json → Bool
  | [] => true
  | x :: xs => canonB x && canonArrB xs

def canonFieldsB : List (String × Json) → Bool
  | [] => true
  | (_, v) :: fs => canonB v && canonFieldsB fs
end

/-- Canonical-form predicate (decidable). -/
def Canon (j : Json) : Prop := canonB j = true


end Json

/-- One step of an RFC 6902 JSON-Pointer path: an object member key or an
array index. -/
inductive Seg where
  | key (k : String) : Seg
  | idx (n : Nat) : Seg
  deriving Repr, DecidableEq

/-- RFC 6902 patch operation, restricted to the `add`/`remove`/`replace`
operations that the document diff emits. -/
inductive PatchOp where
  | add (path : List Seg) (value : Json) : PatchOp
  | remove (path : List Seg) : PatchOp
  | replace (path : List Seg) (value : Json) : PatchOp
  deriving Repr

namespace Json

/-- Replace the first binding of key `k` (if any) by `v`; bind a fresh key in
ascending key position otherwise.  On canonically sorted fields this is the
member write of RFC 6902 `add`. -/
def objSet (k : String) (v : Json) : List (String × Json) → List (String × Json)
  | [] => [(k, v)]
  | (l, w) :: fs =>
    if k = l then (k, v) :: fs
    else if strLtB k l then (k, v) :: (l, w) :: fs
    else (l, w) :: objSet k v fs

/-- Replace the value of the first binding of key `k`, leaving the field list
unchanged when `k` is absent. -/
def objMod (k : String) (v : Json) : List (String × Json) → List (String × Json)
  | [] => []
  | (l, w) :: fs => if l = k then (k, v) :: fs else (l, w) :: objMod k v fs

/-- Delete the first binding of key `k`. -/
def objRemove (k : String) : List (String × Json) → List (String × Json)
  | [] => []
  | (l, w) :: fs => if l = k then fs else (l, w) :: objRemove k fs

/-- Modelled from the spec: RFC 6902 `add` application (the repository delegates
patch application to the external `jsonpatch` library, which is not part of
`src/`).  `add` at the root replaces the whole document; at a final object key it
inserts or overwrites the member; at a final array index `n ≤ length` it inserts;
on a deeper path it descends through an existing member/element. -/
def applyAdd (v : Json) : List Seg → Json → Option Json
  | [], _ => some v
  | [.key k], .obj fs => some (.obj (objSet k v fs))
  | [.idx n], .arr xs => if n ≤ xs.length then some (.arr (xs.insertIdx n v)) else none
  | .key k :: q :: p, .obj fs =>
    match lookupObj k fs with
    | some child => (applyAdd v (q :: p) child).map (fun c => .obj (objMod k c fs))
    | none => none
  | .idx n :: q :: p, .arr xs =>
    match xs.get? n with
    | some child => (applyAdd v (q :: p) child).map (fun c => .arr (xs.set n c))
    | none => none
  | _, _ => none

/-- Modelled from the spec: RFC 6902 `remove` application; the target location
must exist, and the root document cannot be removed. -/
def applyRemove : List Seg → Json → Option Json
  | [], _ => none
  | [.key k], .obj fs => if (lookupObj k fs).isSome then some (.obj (objRemove k fs)) else none
  | [.idx n], .arr xs => if n < xs.length then some (.arr (xs.eraseIdx n)) else none
  | .key k :: q :: p, .obj fs =>
    match lookupObj k fs with
    | some child => (applyRemove (q :: p) child).map (fun c => .obj (objMod k c fs))
    | none => none
  | .idx n :: q :: p, .arr xs =>
    match xs.get? n with
    | some child => (applyRemove (q :: p) child).map (fun c => .arr (xs.set n c))
    | none => none
  | _, _ => none

/-- Modelled from the spec: RFC 6902 `replace` application; every path step must
resolve to an existing member/element. -/
def applyReplace (v : Json) : List Seg → Json → Option Json
  | [], _ => some v
  | .key k :: p, .obj fs =>
    match lookupObj k fs with
    | some child => (applyReplace v p child).map (fun c => .obj (objMod k c fs))
    | none => none
  | .idx n :: p, .arr xs =>
    match xs.get? n with
    | some child => (applyReplace v p child).map (fun c => .arr (xs.set n c))
    | none => none
  | _, _ => none

/-- Apply a single patch operation; `none` models the `jsonpatch` library raising
on an inapplicable operation. -/
def applyOp (doc : Json) : PatchOp → Option Json
  | .add p v => applyAdd v p doc
  | .remove p => applyRemove p doc
  | .replace p v => applyReplace v p doc

/-- Apply a whole operation sequence left to right, failing as a whole if any
operation fails. -/
def applyPatch (doc : Json) : List PatchOp → Option Json
  | [] => some doc
  | op :: ops =>
    match applyOp doc op with
    | some d => applyPatch d ops
    | none => none

/-- `remove` ops for the keys of `bf` that are absent from `af`, in `bf` order. -/
def diffRemoves (p : List Seg) (bf af : List (String × Json)) : List PatchOp :=
  (bf.filter (fun kv => (lookupObj kv.1 af).isNone)).map (fun kv => .remove (p ++ [.key kv.1]))

/-- `add` ops for the keys of `af` that are absent from `bf`, in `af` order. -/
def diffAdds (p : List Seg) (bf af : List (String × Json)) : List PatchOp :=
  (af.filter (fun kv => (lookupObj kv.1 bf).isNone)).map (fun kv => .add (p ++ [.key kv.1]) kv.2)

mutual
/-- Modelled from the spec: the RFC 6902 document diff used by
`json_patch` in `src/core/audit.py` (the repository delegates diff generation to
the external `jsonpatch` library, which is not part of `src/`).  Equal values
produce the empty patch; two objects are compared member-wise (removals for
dropped keys, recursion on common keys, additions for fresh keys); any other
mismatch is a whole-value `replace`.  Arrays are replaced wholesale — the
spec requires only an RFC-6902-compliant diff with the round-trip law, not the
reference library's array edit script. -/
def diffVal (p : List Seg) (b a : Json) : List PatchOp :=
  if beq b a then []
  else
    match b, a with
    | .obj bf, .obj af => diffRemoves p bf af ++ diffCommon p bf af ++ diffAdds p bf af
    | _, _ => [.replace p a]

/-- Recursive diffs for the keys of `bf` that are also present in `af`. -/
def diffCommon (p : List Seg) : List (String × Json) → List (String × Json) → List PatchOp
  | [], _ => []
  | (k, v) :: bf, af =>
    (match lookupObj k af with
     | some w => diffVal (p ++ [.key k]) v w
     | none => []) ++ diffCommon p bf af
end

end Json

/-- `json_patch(before, after)` from `src/core/audit.py`: generate the RFC 6902
patch between two objects (delegated to the external library, modelled by
`Json.diffVal`; the library's diff is total on JSON documents, so the
degrade-to-empty-patch error branch of the wrapper is unreachable). -/
def json_patch (before after : Json) : List PatchOp :=
  Json.diffVal [] before after

/-- `apply_json_patch(obj, patch_ops)` from `src/core/audit.py`: apply a patch,
`none` standing for the raised `AuditError` when the patch does not apply. -/
def apply_json_patch (obj : Json) (patch_ops : List PatchOp) : Option Json :=
  Json.applyPatch obj patch_ops

namespace Json

/-- Prefix an operation's path with `p`. -/
def prependPath (p : List Seg) : PatchOp → PatchOp
  | .add q v => .add (p ++ q) v
  | .remove q => .remove (p ++ q)
  | .replace q v => .replace (p ++ q) v

/-- Rewrite each common-key binding of `cur` to the value bound in `af`. -/
def updCommon (af : List (String × Json)) (cur : List (String × Json)) :
    List (String × Json) :=
  cur.map (fun kv =>
    match lookupObj kv.1 af with
    | some w => (kv.1, w)
    | none => kv)

/-- Field lists whose keys are pairwise strictly increasing is the invariant the
round-trip proof tracks. -/
def KeysSorted (fs : List (String × Json)) : Prop :=
  (keysOf fs).Pairwise (fun a b => strLtB a b = true)

end Json

-- ===== audit records (src/core/audit.py) =====

/-- A JSON object as passed to `record_audit` (a Python `dict | None` argument is
`Option JsonObj`). -/
abbrev JsonObj := List (String × Json)

/-- Python truthiness of a `dict | None` value: `None` and the empty dict are
falsy. -/
def pyTruthyObj : Option JsonObj → Bool
  | none => false
  | some fs => !fs.isEmpty

/-- The pure core of `record_audit` (`src/core/audit.py` lines 157-177): the
`patch_json` and `snapshot` fields of the stored record.  `patch_json` is
`json_patch(before, after)` exactly when both arguments are not `None`
(`if before is not None and after is not None`); `snapshot` is the Python
expression `after or before or {}`, which coalesces on *truthiness*. -/
def record_audit (before after : Option JsonObj) : List PatchOp × JsonObj :=
  let patch_json : List PatchOp :=
    match before, after with
    | some b, some a => json_patch (.obj b) (.obj a)
    | _, _ => []
  let snapshot : JsonObj :=
    if pyTruthyObj after then after.getD []
    else if pyTruthyObj before then before.getD []
    else []
  (patch_json, snapshot)

/-- One row of the `audit_log` table as read back by
`reconstruct_object_at_version`.  `snapshot = none` models SQL `NULL` (the only
falsy value of the text column, since `json.dumps` output is never empty);
`patch_json = []` covers both `NULL` and a stored empty operation list, which the
code treats identically (skip). -/
structure AuditRow where
  id : Nat
  ts : Nat
  resource : String
  resource_id : String
  event_type : String
  version : Nat
  patch_json : List PatchOp
  snapshot : Option Json
  deriving Repr

/-- The `ORDER BY version ASC, ts ASC, id ASC` comparison of the reconstruction
query. -/
def auditRowLE (r s : AuditRow) : Bool :=
  if r.version ≠ s.version then r.version < s.version
  else if r.ts ≠ s.ts then r.ts < s.ts
  else r.id ≤ s.id

/-- Insert a row into a list sorted by `auditRowLE`. -/
def insertRow (r : AuditRow) : List AuditRow → List AuditRow
  | [] => [r]
  | s :: rest => if auditRowLE r s then r :: s :: rest else s :: insertRow r rest

/-- Sort rows by `(version, ts, id)` ascending (insertion sort, modelling the
SQL `ORDER BY`). -/
def sortRows : List AuditRow → List AuditRow
  | [] => []
  | r :: rest => insertRow r (sortRows rest)

/-- The `AuditError` exception of `src/core/audit.py` (message text not
modelled): `cannotApplyPatch` is raised by `apply_json_patch`,
`cannotReconstruct` by the blanket handler of `reconstruct_object_at_version`. -/
inductive AuditError where
  | cannotApplyPatch : AuditError
  | cannotReconstruct : AuditError
  deriving Repr, DecidableEq

/-- `apply_json_patch` with its failure surfaced as the `AuditError` it raises. -/
def apply_json_patch_exc (obj : Json) (patch_ops : List PatchOp) :
    Except AuditError Json :=
  match apply_json_patch obj patch_ops with
  | some r => .ok r
  | none => .error .cannotApplyPatch

/-- The patch-application loop body of `reconstruct_object_at_version`: skip
rows with `version == 1` and rows without patch operations, otherwise apply the
row's patch to the running state. -/
def reconstructStep (st : Json) (r : AuditRow) : Except AuditError Json :=
  if r.version = 1 then .ok st
  else if r.patch_json.isEmpty then .ok st
  else apply_json_patch_exc st r.patch_json

/-- Declarative sequential patch application over `apply_json_patch` (the
claim's reading of the reconstruction loop): apply each operation list in
order, failing as a whole on the first inapplicable patch. -/
def applyPatchSeq (init : Json) : List (List PatchOp) → Option Json
  | [] => some init
  | ops :: rest =>
    match apply_json_patch init ops with
    | some st => applyPatchSeq st rest
    | none => none

/-- The `WHERE` clause of the reconstruction query: same resource, and
`version <= target_version`. -/
def reconSelect (resource resource_id : String) (target_version : Nat)
    (r : AuditRow) : Bool :=
  r.resource == resource && r.resource_id == resource_id
    && r.version ≤ target_version

/-- The creation-seed test of the reconstruction loop: a `created` row carrying
a snapshot. -/
def createdWithSnapshot (r : AuditRow) : Bool :=
  r.event_type == "created" && r.snapshot.isSome

/-- The seed-and-apply tail of `reconstruct_object_at_version`: absent result
without a creation snapshot; otherwise run the application loop over all
selected rows, rewrapping any patch failure. -/
def reconstructFrom (records : List AuditRow) (seed : Option Json) :
    Except AuditError (Option Json) :=
  match seed with
  | none => .ok none
  | some init =>
    match records.foldlM reconstructStep init with
    | .ok st => .ok (some st)
    | .error _ => .error .cannotReconstruct

/-- `reconstruct_object_at_version` (`src/core/audit.py` lines 379-472): select
the resource's rows with `version <= target_version`, order them by
`(version, ts, id)` ascending, seed from the first `created` row carrying a
snapshot (absent result when there is none), then run the application loop over
*all* selected rows; the blanket `except` rewraps any patch failure, so the
caller sees an `AuditError` and no partial state. -/
def reconstruct_object_at_version (table : List AuditRow) (resource resource_id : String)
    (target_version : Nat) : Except AuditError (Option Json) :=
  let records := sortRows (table.filter (reconSelect resource resource_id target_version))
  if records.isEmpty then .ok none
  else reconstructFrom records ((records.find? createdWithSnapshot).bind (fun r => r.snapshot))

-- ===== outbox (src/core/outbox.py) =====

/-- One row of the `outbox_events` table; `processed_at = none` models SQL
`NULL` (unprocessed). -/
structure OutboxRow where
  id : Nat
  ts : Nat
  site_id : String
  aggregate : String
  aggregate_id : String
  event_type : String
  payload : Json
  processed_at : Option Nat
  deriving Repr

/-- `OutboxManager.mark_processed` (`src/core/outbox.py` lines 229-279):
`UPDATE outbox_events SET processed_at = NOW() WHERE id IN (ids) AND
processed_at IS NULL`, returning the update's row count; the empty id list
short-circuits to 0. -/
def mark_processed (nowTs : Nat) (table : List OutboxRow) (event_ids : List Nat) :
    Nat × List OutboxRow :=
  if event_ids.isEmpty then (0, table)
  else
    let hit := fun (r : OutboxRow) => event_ids.contains r.id && r.processed_at.isNone
    ((table.filter hit).length,
     table.map (fun r => if hit r then { r with processed_at := some nowTs } else r))

/-- `OutboxManager.cleanup_processed_events` (`src/core/outbox.py` lines
345-383): `DELETE FROM outbox_events WHERE processed_at IS NOT NULL AND
processed_at < NOW() - INTERVAL hours`, returning the delete's row count.
`cutoff` stands for the evaluated `NOW() - INTERVAL` bound. -/
def cleanup_processed_events (cutoff : Nat) (table : List OutboxRow) :
    Nat × List OutboxRow :=
  let doomed := fun (r : OutboxRow) =>
    match r.processed_at with
    | some t => decide (t < cutoff)
    | none => false
  ((table.filter doomed).length, table.filter (fun r => !doomed r))

-- ===== idempotency (src/core/idempotency.py) =====

/-- Status codes of `idempotency_keys.status` (`IdempotencyStatus` IntEnum). -/
inductive IdempotencyStatus where
  | processing : IdempotencyStatus
  | completed : IdempotencyStatus
  | failed : IdempotencyStatus
  deriving Repr, DecidableEq

/-- A captured or replayed HTTP response: status code, headers, body. -/
structure HttpResponse where
  status_code : Nat
  headers : List (String × String)
  body : String
  deriving Repr, DecidableEq

/-- An inbound HTTP request as seen by the middleware. -/
structure HttpRequest where
  method : String
  path : String
  query : String
  headers : List (String × String)
  body : String
  deriving Repr, DecidableEq

/-- First header with the given exact name. -/
def headerGet (headers : List (String × String)) (name : String) : Option String :=
  (headers.find? (fun h => h.1 == name)).map Prod.snd

/-- A stored `idempotency_keys` row (`IdempotencyRecord`).  Note it has *no*
status-code field: only headers and body of the response are captured. -/
structure IdempotencyRecord where
  key : String
  status : IdempotencyStatus
  headers : List (String × String)
  body : String
  deriving Repr, DecidableEq

/-- `IdempotencyRecord.to_response` (`src/core/idempotency.py` lines 72-79):
rebuild a response from a stored record with the hard-coded default
`status_code=200` (the source comments "should be overridden by headers if
stored", but no status is ever stored). -/
def IdempotencyRecord.to_response (r : IdempotencyRecord) : HttpResponse :=
  { status_code := 200, headers := r.headers, body := r.body }

/-- The `idempotency_keys` table keyed by the normalized key. -/
abbrev IdempotencyStore := List (String × IdempotencyRecord)

/-- Association-list lookup (first row with the key). -/
def storeLookup (store : IdempotencyStore) (key : String) : Option IdempotencyRecord :=
  (store.find? (fun e => e.1 == key)).map Prod.snd

/-- `IdempotencyManager.get_record`: select the row by key. -/
def get_record (store : IdempotencyStore) (key : String) : Option IdempotencyRecord :=
  storeLookup store key

/-- `IdempotencyManager.store_record` (`src/core/idempotency.py` lines 121-165):
a plain `INSERT`; a duplicate-key violation is translated to `false` and the
existing row is left untouched. -/
def store_record (store : IdempotencyStore) (record : IdempotencyRecord) :
    Bool × IdempotencyStore :=
  if (storeLookup store record.key).isSome then (false, store)
  else (true, store ++ [(record.key, record)])

/-- `IdempotencyManager.update_record_status` (`src/core/idempotency.py` lines
167-225): partial `UPDATE` of status and, when supplied, headers and body;
returns `false` when the key does not exist. -/
def update_record_status (store : IdempotencyStore) (key : String)
    (status : IdempotencyStatus) (headers : Option (List (String × String)))
    (body : Option String) : Bool × IdempotencyStore :=
  if (storeLookup store key).isSome then
    (true,
     store.map (fun e =>
       if e.1 == key then
         (e.1, { e.2 with
                 status := status
                 headers := headers.getD e.2.headers
                 body := body.getD e.2.body })
       else e))
  else (false, store)

/-- Minimal JSON string escaping as performed by `json.dumps` on the
fingerprint fields (backslash and double quote; other characters of interest to
the claims pass through unchanged). -/
def jsonEscape (s : String) : String :=
  s.data.foldl (fun acc c =>
    if c = '\\' then acc ++ "\\\\"
    else if c = '"' then acc ++ "\\\x22"
    else acc.push c) ""

/-- The `json.dumps(fingerprint_data, sort_keys=True)` payload of
`_normalize_key`: the four request-derived fields in sorted key order. -/
def fingerprintPayload (method path query key : String) : String :=
  "\x7b\x22key\x22: \x22" ++ jsonEscape key ++
  "\x22, \x22method\x22: \x22" ++ jsonEscape method ++
  "\x22, \x22path\x22: \x22" ++ jsonEscape path ++
  "\x22, \x22query\x22: \x22" ++ jsonEscape query ++ "\x22\x7d"

/-- Modelled from the spec: `hashlib.sha256(...).hexdigest()` — the hash is an
external library primitive; the claims only need a deterministic digest of the
input string, so a concrete polynomial stand-in in hexadecimal is used. -/
def sha256hexModel (s : String) : String :=
  let m : Nat := 2 ^ 256
  let h := s.data.foldl (fun acc c => (acc * 131 + c.toNat + 7) % m) 5381
  (Nat.toDigits 16 h).asString

/-- `IdempotencyMiddleware._normalize_key` (`src/core/idempotency.py` lines
399-421): the supplied key joined with the first 16 hex characters of the
digest of `{method, path, query, key}`. -/
def normalize_key (key : String) (request : HttpRequest) : String :=
  let fingerprint :=
    (sha256hexModel (fingerprintPayload request.method request.path request.query key)).take 16
  key ++ ":" ++ fingerprint

/-- Middleware configuration (`IdempotencyMiddleware.__init__` defaults). -/
structure MiddlewareConfig where
  header_name : String
  methods : List String
  skip_paths : List String
  deriving Repr

/-- The default middleware configuration. -/
def defaultConfig : MiddlewareConfig :=
  { header_name := "Idempotency-Key"
    methods := ["POST", "PUT", "PATCH"]
    skip_paths := ["/healthz", "/readyz", "/metrics"] }

/-- Outcome of `call_next`: the downstream handler either returns a response or
raises. -/
inductive HandlerResult where
  | success (resp : HttpResponse) : HandlerResult
  | raised : HandlerResult
  deriving Repr, DecidableEq

/-- What the middleware's caller observes. -/
inductive DispatchOutcome where
  | response (resp : HttpResponse) : DispatchOutcome
  | raised : DispatchOutcome
  deriving Repr, DecidableEq

/-- The 409 conflict response built by `dispatch`. -/
def conflictResponse : HttpResponse :=
  { status_code := 409
    headers := [("Content-Type", "application/json")]
    body := "Request is being processed" }

/-- Convert the handler's outcome into the dispatched outcome (pass-through). -/
def HandlerResult.toOutcome : HandlerResult → DispatchOutcome
  | .success resp => .response resp
  | .raised => .raised

/-- The claim-and-execute tail of `IdempotencyMiddleware.dispatch`
(`src/core/idempotency.py` lines 328-397): build a PROCESSING record, attempt
`store_record`, reject with 409 only when the insert lost *and* no record
existed at check time, otherwise run the handler and persist COMPLETED (with
unfiltered `dict(response.headers)` and the body) on a 2xx response and FAILED
otherwise, re-raising handler exceptions after persisting FAILED.
Returns (outcome, final store, whether the handler body ran). -/
def dispatch_claim (key : String) (existing : Option IdempotencyRecord)
    (store : IdempotencyStore) (handler : HandlerResult) :
    DispatchOutcome × IdempotencyStore × Bool :=
  let processing_record : IdempotencyRecord :=
    { key := key, status := .processing, headers := [], body := "" }
  let claim := store_record store processing_record
  if !claim.1 && existing.isNone then (.response conflictResponse, claim.2, false)
  else
    match handler with
    | .raised =>
      (.raised, (update_record_status claim.2 key .failed none none).2, true)
    | .success resp =>
      if 200 ≤ resp.status_code ∧ resp.status_code < 300 then
        (.response resp,
         (update_record_status claim.2 key .completed (some resp.headers) (some resp.body)).2,
         true)
      else
        (.response resp, (update_record_status claim.2 key .failed none none).2, true)

/-- `IdempotencyMiddleware.dispatch` (`src/core/idempotency.py` lines 286-397):
pass through non-idempotent methods, skip paths and keyless requests; replay a
COMPLETED record via `to_response`; 409 on PROCESSING; fall through to
`dispatch_claim` on FAILED or absent records. -/
def dispatch (cfg : MiddlewareConfig) (store : IdempotencyStore)
    (request : HttpRequest) (handler : HandlerResult) :
    DispatchOutcome × IdempotencyStore × Bool :=
  if !(cfg.methods.contains request.method) || cfg.skip_paths.contains request.path then
    (handler.toOutcome, store, true)
  else
    match headerGet request.headers cfg.header_name with
    | none => (handler.toOutcome, store, true)
    | some idemKey =>
      if idemKey = "" then (handler.toOutcome, store, true)
      else
        let key := normalize_key idemKey request
        let existing := get_record store key
        match existing with
        | some rec =>
          if rec.status = .completed then (.response rec.to_response, store, false)
          else if rec.status = .processing then (.response conflictResponse, store, false)
          else dispatch_claim key existing store handler
        | none => dispatch_claim key none store handler

-- ===== unit of work (src/core/uow.py) =====

/-- The exception hierarchy of `src/core/uow.py`: `SiteContextError` is a
subclass of `UnitOfWorkError`; the constructors record which concrete class was
raised. -/
inductive UowException where
  | siteContextError (msg : String) : UowException
  | unitOfWorkError (msg : String) : UowException
  deriving Repr, DecidableEq

/-- `_set_site_context` (`src/core/uow.py` lines 135-167): run
`SET LOCAL app.current_site`, read the setting back, and raise
`SiteContextError` when the set statement failed or the read-back value
differs from the site id (the inner raise is re-wrapped by the function's own
blanket handler, still as `SiteContextError`).  `set_failed` models a database
error from the SET statement and `read_back` the value returned by
`current_setting`. -/
def _set_site_context (site_id : String) (set_failed : Bool)
    (read_back : Option String) : Except UowException Unit :=
  if set_failed then .error (.siteContextError "Cannot set site context")
  else if read_back = some site_id then .ok ()
  else .error (.siteContextError "Cannot set site context: Site context verification failed")

/-- `write_uow` (`src/core/uow.py` lines 28-79): begin, set the site context
first, run the body, commit; *any* exception — including the
`SiteContextError` from context setup — is caught, the transaction rolled
back, and a fresh plain `UnitOfWorkError` raised in its place. -/
def write_uow {α : Type} (site_id : String) (set_failed : Bool)
    (read_back : Option String) (body : Except String α) : Except UowException α :=
  match _set_site_context site_id set_failed read_back with
  | .error _ => .error (.unitOfWorkError "Write transaction failed")
  | .ok () =>
    match body with
    | .ok r => .ok r
    | .error _ => .error (.unitOfWorkError "Write transaction failed")

/-- `read_uow` (`src/core/uow.py` lines 82-132): as `write_uow` but read-only;
the same blanket handler wraps every failure as a plain `UnitOfWorkError`. -/
def read_uow {α : Type} (site_id : String) (set_failed : Bool)
    (read_back : Option String) (body : Except String α) : Except UowException α :=
  match _set_site_context site_id set_failed read_back with
  | .error _ => .error (.unitOfWorkError "Read transaction failed")
  | .ok () =>
    match body with
    | .ok r => .ok r
    | .error _ => .error (.unitOfWorkError "Read transaction failed")

-- ===== site resolver (src/core/site_resolver.py) =====

/-- A resolved site (`Site` model). -/
structure Site where
  id : String
  uid : String
  name : String
  host : String
  deriving Repr, DecidableEq

/-- The in-memory site cache: host to (site, cached-at time). -/
abbrev SiteCacheMap := List (String × (Site × Nat))

/-- Association-list write with dict semantics (replace first binding or
append). -/
def assocSet {α : Type} (k : String) (v : α) : List (String × α) → List (String × α)
  | [] => [(k, v)]
  | (l, w) :: rest => if l = k then (k, v) :: rest else (l, w) :: assocSet k v rest

/-- Association-list lookup. -/
def assocGet {α : Type} (k : String) : List (String × α) → Option α
  | [] => none
  | (l, w) :: rest => if l = k then some w else assocGet k rest

/-- `SiteCache.get` (`src/core/site_resolver.py` lines 59-69): return a fresh
entry, evict an expired one. -/
def cache_get (ttl nowTs : Nat) (cache : SiteCacheMap) (key : String) :
    Option Site × SiteCacheMap :=
  match assocGet key cache with
  | some (site, cachedAt) =>
    if nowTs - cachedAt < ttl then (some site, cache)
    else (none, cache.filter (fun e => e.1 ≠ key))
  | none => (none, cache)

/-- `SiteCache.set`: store (site, now) under the host key. -/
def cache_set (nowTs : Nat) (cache : SiteCacheMap) (key : String) (site : Site) :
    SiteCacheMap :=
  assocSet key (site, nowTs) cache

/-- `SiteResolver.by_host` (`src/core/site_resolver.py` lines 93-125): cache
first; on a miss query the `sites` table by host and populate the cache on a
hit. -/
def by_host (ttl nowTs : Nat) (cache : SiteCacheMap) (db : List Site)
    (host : String) : Option Site × SiteCacheMap :=
  let checked := cache_get ttl nowTs cache host
  match checked.1 with
  | some s => (some s, checked.2)
  | none =>
    match db.find? (fun s => s.host == host) with
    | some site => (some site, cache_set nowTs checked.2 host site)
    | none => (none, checked.2)

/-- `SiteResolver.invalidate_cache` (`src/core/site_resolver.py` lines
141-152): remove one host's entry when a truthy host is given (`if host:` —
the empty string is falsy and clears everything), otherwise clear the cache. -/
def invalidate_cache (cache : SiteCacheMap) (host : Option String) : SiteCacheMap :=
  match host with
  | some h => if h ≠ "" then cache.filter (fun e => e.1 ≠ h) else []
  | none => []



-- ======================= theorems =======================

namespace Json

mutual
theorem beq_iff : ∀ (a b : Json), beq a b = true ↔ a = b
  | .null, b => by cases b <;> simp [beq]
  | .bool x, b => by cases b <;> simp [beq]
  | .num x, b => by cases b <;> simp [beq]
  | .str x, b => by cases b <;> simp [beq]
  | .arr xs, b => by
      cases b with
      | arr ys => simp [beq, beqList_iff xs ys]
      | _ => simp [beq]
  | .obj fs, b => by
      cases b with
      | obj gs => simp [beq, beqFields_iff fs gs]
      | _ => simp [beq]

theorem beqList_iff : ∀ (xs ys : List Json), beqList xs ys = true ↔ xs = ys
  | [], ys => by cases ys <;> simp [beqList]
  | x :: xs, ys => by
      cases ys with
      | nil => simp [beqList]
      | cons y ys => simp [beqList, beq_iff x y, beqList_iff xs ys]

theorem beqFields_iff : ∀ (fs gs : List (String × Json)), beqFields fs gs = true ↔ fs = gs
  | [], gs => by cases gs <;> simp [beqFields]
  | (k, v) :: fs, gs => by
      cases gs with
      | nil => simp [beqFields]
      | cons g gs =>
          obtain ⟨l, w⟩ := g
          simp [beqFields, beq_iff v w, beqFields_iff fs gs]
end

end Json

-- ===== key-order lemmas =====

theorem charLtB_irrefl (c : Char) : charLtB c c = false := by
  simp [charLtB]

theorem charLtB_trans {a b c : Char} (h1 : charLtB a b = true)
    (h2 : charLtB b c = true) : charLtB a c = true := by
  simp only [charLtB, decide_eq_true_eq] at *
  omega

theorem charLtB_ne {a b : Char} (h : charLtB a b = true) : a ≠ b := by
  intro hab
  subst hab
  rw [charLtB_irrefl] at h
  exact Bool.false_ne_true h

theorem charLtB_total {a b : Char} (h : a ≠ b) :
    charLtB a b = true ∨ charLtB b a = true := by
  simp only [charLtB, decide_eq_true_eq]
  have hne : a.toNat ≠ b.toNat := by
    intro hn
    exact h (Char.ext (UInt32.ext hn))
  omega

theorem chListLtB_irrefl : ∀ l : List Char, chListLtB l l = false
  | [] => rfl
  | c :: cs => by
    simp [chListLtB, charLtB_irrefl, chListLtB_irrefl cs]

theorem chListLtB_trans : ∀ {l1 l2 l3 : List Char}, chListLtB l1 l2 = true →
    chListLtB l2 l3 = true → chListLtB l1 l3 = true
  | [], l2, l3, h1, h2 => by
    cases l2 with
    | nil => exact absurd h1 (by simp [chListLtB])
    | cons b bs =>
      cases l3 with
      | nil => exact absurd h2 (by simp [chListLtB])
      | cons c cs => simp [chListLtB]
  | a :: as, l2, l3, h1, h2 => by
    cases l2 with
    | nil => exact absurd h1 (by simp [chListLtB])
    | cons b bs =>
      cases l3 with
      | nil => exact absurd h2 (by simp [chListLtB])
      | cons c cs =>
        simp only [chListLtB, Bool.or_eq_true, Bool.and_eq_true,
          decide_eq_true_eq] at h1 h2 ⊢
        rcases h1 with h1 | ⟨hab, h1⟩
        · rcases h2 with h2 | ⟨hbc, h2⟩
          · exact Or.inl (charLtB_trans h1 h2)
          · subst hbc
            exact Or.inl h1
        · subst hab
          rcases h2 with h2 | ⟨hbc, h2⟩
          · exact Or.inl h2
          · subst hbc
            exact Or.inr ⟨rfl, chListLtB_trans h1 h2⟩

theorem chListLtB_total : ∀ {l1 l2 : List Char}, l1 ≠ l2 →
    chListLtB l1 l2 = true ∨ chListLtB l2 l1 = true
  | [], [], h => absurd rfl h
  | [], _ :: _, _ => Or.inl (by simp [chListLtB])
  | _ :: _, [], _ => Or.inr (by simp [chListLtB])
  | a :: as, b :: bs, h => by
    by_cases hab : a = b
    · subst hab
      have hne : as ≠ bs := by
        intro he
        exact h (by rw [he])
      rcases chListLtB_total hne with ht | ht
      · exact Or.inl (by simp [chListLtB, ht])
      · exact Or.inr (by simp [chListLtB, ht])
    · rcases charLtB_total hab with ht | ht
      · exact Or.inl (by simp [chListLtB, ht])
      · exact Or.inr (by simp [chListLtB, ht])

theorem strLtB_irrefl (s : String) : strLtB s s = false :=
  chListLtB_irrefl s.data

theorem strLtB_trans {a b c : String} (h1 : strLtB a b = true)
    (h2 : strLtB b c = true) : strLtB a c = true :=
  chListLtB_trans h1 h2

theorem strLtB_ne {a b : String} (h : strLtB a b = true) : a ≠ b := by
  intro hab
  subst hab
  rw [strLtB_irrefl] at h
  exact Bool.false_ne_true h

theorem strLtB_total {a b : String} (h : a ≠ b) :
    strLtB a b = true ∨ strLtB b a = true := by
  apply chListLtB_total
  intro hd
  exact h (String.ext hd)

theorem strLtB_asymm {a b : String} (h : strLtB a b = true) :
    strLtB b a = false := by
  by_contra hba
  have hba' : strLtB b a = true := by
    cases hv : strLtB b a
    · exact absurd hv hba
    · rfl
  have := strLtB_trans h hba'
  rw [strLtB_irrefl] at this
  exact Bool.false_ne_true this

namespace Json

-- ===== canonical form unpacking =====

theorem sortedKeysB_iff_pairwise : ∀ l : List String,
    sortedKeysB l = true ↔ l.Pairwise (fun a b => strLtB a b = true)
  | [] => by simp [sortedKeysB]
  | [a] => by simp [sortedKeysB]
  | a :: b :: rest => by
    rw [show sortedKeysB (a :: b :: rest) = (strLtB a b && sortedKeysB (b :: rest)) from rfl]
    rw [Bool.and_eq_true, sortedKeysB_iff_pairwise (b :: rest)]
    constructor
    · rintro ⟨hab, hp⟩
      refine List.Pairwise.cons ?_ hp
      intro x hx
      rcases List.mem_cons.mp hx with rfl | hx
      · exact hab
      · exact strLtB_trans hab (List.rel_of_pairwise_cons hp hx)
    · intro hp
      exact ⟨List.rel_of_pairwise_cons hp (List.mem_cons_self _ _),
        List.Pairwise.sublist (List.sublist_cons_self _ _) hp⟩

theorem canon_obj_sorted {fs : List (String × Json)} (h : Canon (.obj fs)) :
    KeysSorted fs := by
  have := (Bool.and_eq_true _ _).mp h
  exact (sortedKeysB_iff_pairwise (keysOf fs)).mp this.1

theorem canonFieldsB_mem : ∀ {fs : List (String × Json)},
    canonFieldsB fs = true → ∀ kv ∈ fs, canonB kv.2 = true
  | [], _, kv, hkv => absurd hkv (List.not_mem_nil kv)
  | (k, v) :: rest, h, kv, hkv => by
    rw [show canonFieldsB ((k, v) :: rest) = (canonB v && canonFieldsB rest) from rfl,
      Bool.and_eq_true] at h
    rcases List.mem_cons.mp hkv with rfl | hkv
    · exact h.1
    · exact canonFieldsB_mem h.2 kv hkv

theorem canon_obj_fields {fs : List (String × Json)} (h : Canon (.obj fs)) :
    ∀ kv ∈ fs, Canon kv.2 := by
  have := (Bool.and_eq_true _ _).mp h
  exact canonFieldsB_mem this.2

theorem canonArrB_mem : ∀ {xs : List Json},
    canonArrB xs = true → ∀ x ∈ xs, canonB x = true
  | [], _, x, hx => absurd hx (List.not_mem_nil x)
  | y :: rest, h, x, hx => by
    rw [show canonArrB (y :: rest) = (canonB y && canonArrB rest) from rfl,
      Bool.and_eq_true] at h
    rcases List.mem_cons.mp hx with rfl | hx
    · exact h.1
    · exact canonArrB_mem h.2 x hx

theorem keysSorted_nodup {fs : List (String × Json)} (h : KeysSorted fs) :
    (keysOf fs).Nodup := by
  exact h.imp (fun hlt => strLtB_ne hlt)

-- ===== lookup / objMod / objSet / objRemove lemmas =====

theorem lookup_isSome_iff_mem : ∀ {k : String} {fs : List (String × Json)},
    (lookupObj k fs).isSome = true ↔ k ∈ keysOf fs
  | k, [] => by simp [lookupObj, keysOf]
  | k, (l, w) :: fs => by
    by_cases h : l = k
    · subst h
      simp [lookupObj, keysOf]
    · rw [show lookupObj k ((l, w) :: fs) = lookupObj k fs from by simp [lookupObj, h]]
      rw [lookup_isSome_iff_mem]
      simp [keysOf, h, Ne.symm h]

theorem lookup_eq_none_iff_not_mem {k : String} {fs : List (String × Json)} :
    lookupObj k fs = none ↔ k ∉ keysOf fs := by
  rw [← lookup_isSome_iff_mem]
  cases lookupObj k fs <;> simp

theorem lookup_mem : ∀ {k : String} {fs : List (String × Json)} {w : Json},
    lookupObj k fs = some w → (k, w) ∈ fs
  | k, [], w, h => by simp [lookupObj] at h
  | k, (l, v) :: fs, w, h => by
    by_cases hl : l = k
    · subst hl
      rw [show lookupObj l ((l, v) :: fs) = some v from by simp [lookupObj]] at h
      obtain rfl := Option.some.inj h
      exact List.mem_cons_self _ _
    · rw [show lookupObj k ((l, v) :: fs) = lookupObj k fs from by simp [lookupObj, hl]] at h
      exact List.mem_cons_of_mem _ (lookup_mem h)

theorem lookup_of_mem_nodup : ∀ {k : String} {v : Json} {fs : List (String × Json)},
    (keysOf fs).Nodup → (k, v) ∈ fs → lookupObj k fs = some v
  | k, v, [], _, hm => absurd hm (List.not_mem_nil _)
  | k, v, (l, w) :: fs, hnd, hm => by
    rcases List.mem_cons.mp hm with he | hm
    · cases he
      simp [lookupObj]
    · have hk : k ∈ keysOf fs := List.mem_map.mpr ⟨(k, v), hm, rfl⟩
      have hl : l ≠ k := by
        rintro rfl
        exact (List.nodup_cons.mp hnd).1 hk
      rw [show lookupObj k ((l, w) :: fs) = lookupObj k fs from by simp [lookupObj, hl]]
      exact lookup_of_mem_nodup (List.nodup_cons.mp hnd).2 hm

theorem lookup_append_left {k : String} {pre rest : List (String × Json)}
    (h : lookupObj k pre = none) :
    lookupObj k (pre ++ rest) = lookupObj k rest := by
  induction pre with
  | nil => rfl
  | cons e pre ih =>
    obtain ⟨l, w⟩ := e
    by_cases hl : l = k
    · subst hl
      simp [lookupObj] at h
    · rw [List.cons_append,
        show lookupObj k ((l, w) :: (pre ++ rest)) = lookupObj k (pre ++ rest) from by
          simp [lookupObj, hl]]
      apply ih
      rw [show lookupObj k ((l, w) :: pre) = lookupObj k pre from by
        simp [lookupObj, hl]] at h
      exact h

theorem keysOf_objMod : ∀ (k : String) (v : Json) (fs : List (String × Json)),
    keysOf (objMod k v fs) = keysOf fs
  | k, v, [] => rfl
  | k, v, (l, w) :: fs => by
    by_cases hl : l = k
    · subst hl
      simp [objMod, keysOf]
    · simp only [objMod, if_neg hl, keysOf, List.map_cons, List.cons.injEq]
      exact ⟨trivial, keysOf_objMod k v fs⟩

theorem lookup_objMod_self : ∀ {k : String} {fs : List (String × Json)},
    (lookupObj k fs).isSome = true → ∀ v, lookupObj k (objMod k v fs) = some v
  | k, [], h, v => by simp [lookupObj] at h
  | k, (l, w) :: fs, h, v => by
    by_cases hl : l = k
    · subst hl
      simp [objMod, lookupObj]
    · rw [show objMod k v ((l, w) :: fs) = (l, w) :: objMod k v fs from by
        simp [objMod, hl]]
      rw [show lookupObj k ((l, w) :: objMod k v fs) = lookupObj k (objMod k v fs) from by
        simp [lookupObj, hl]]
      rw [show lookupObj k ((l, w) :: fs) = lookupObj k fs from by
        simp [lookupObj, hl]] at h
      exact lookup_objMod_self h v

theorem lookup_objMod_ne : ∀ {j k : String} (hne : j ≠ k) (v : Json)
    (fs : List (String × Json)), lookupObj j (objMod k v fs) = lookupObj j fs
  | j, k, hne, v, [] => rfl
  | j, k, hne, v, (l, w) :: fs => by
    have hkj : k ≠ j := Ne.symm hne
    by_cases hl : l = k
    · subst hl
      simp [objMod, lookupObj, hkj]
    · simp only [objMod, if_neg hl]
      by_cases hj : l = j
      · subst hj
        simp [lookupObj]
      · rw [show lookupObj j ((l, w) :: objMod k v fs) = lookupObj j (objMod k v fs) from by
          simp [lookupObj, hj]]
        rw [show lookupObj j ((l, w) :: fs) = lookupObj j fs from by
          simp [lookupObj, hj]]
        exact lookup_objMod_ne hne v fs

theorem objMod_objMod : ∀ (k : String) (v w : Json) (fs : List (String × Json)),
    objMod k v (objMod k w fs) = objMod k v fs
  | k, v, w, [] => rfl
  | k, v, w, (l, u) :: fs => by
    by_cases hl : l = k
    · subst hl
      simp [objMod]
    · simp [objMod, hl, objMod_objMod k v w fs]

theorem objMod_self_lookup : ∀ {k : String} {v : Json} {fs : List (String × Json)},
    lookupObj k fs = some v → objMod k v fs = fs
  | k, v, [], h => by simp [lookupObj] at h
  | k, v, (l, u) :: fs, h => by
    by_cases hl : l = k
    · subst hl
      rw [show lookupObj l ((l, u) :: fs) = some u from by simp [lookupObj]] at h
      obtain rfl := Option.some.inj h
      simp [objMod]
    · rw [show lookupObj k ((l, u) :: fs) = lookupObj k fs from by
        simp [lookupObj, hl]] at h
      simp [objMod, hl, objMod_self_lookup h]

theorem objMod_append_left {k : String} {pre rest : List (String × Json)}
    (h : lookupObj k pre = none) (v : Json) :
    objMod k v (pre ++ rest) = pre ++ objMod k v rest := by
  induction pre with
  | nil => rfl
  | cons e pre ih =>
    obtain ⟨l, w⟩ := e
    by_cases hl : l = k
    · subst hl
      simp [lookupObj] at h
    · rw [show lookupObj k ((l, w) :: pre) = lookupObj k pre from by
        simp [lookupObj, hl]] at h
      simp [objMod, hl, ih h]

theorem lookup_objSet_self : ∀ (k : String) (v : Json) (fs : List (String × Json)),
    lookupObj k (objSet k v fs) = some v
  | k, v, [] => by simp [objSet, lookupObj]
  | k, v, (l, w) :: fs => by
    by_cases hl : k = l
    · subst hl
      simp [objSet, lookupObj]
    · simp only [objSet, if_neg hl]
      by_cases hlt : strLtB k l = true
      · simp [hlt, lookupObj]
      · rw [if_neg hlt]
        have hlk : l ≠ k := fun he => hl he.symm
        rw [show lookupObj k ((l, w) :: objSet k v fs) = lookupObj k (objSet k v fs) from by
          simp [lookupObj, hlk]]
        exact lookup_objSet_self k v fs

theorem lookup_objSet_ne : ∀ {j k : String} (hne : j ≠ k) (v : Json)
    (fs : List (String × Json)), lookupObj j (objSet k v fs) = lookupObj j fs
  | j, k, hne, v, [] => by
    have hkj : k ≠ j := Ne.symm hne
    simp [objSet, lookupObj, hkj]
  | j, k, hne, v, (l, w) :: fs => by
    have hkj : k ≠ j := Ne.symm hne
    by_cases hl : k = l
    · subst hl
      simp [objSet, lookupObj, hkj]
    · simp only [objSet, if_neg hl]
      by_cases hlt : strLtB k l = true
      · rw [if_pos hlt]
        rw [show lookupObj j ((k, v) :: (l, w) :: fs) = lookupObj j ((l, w) :: fs) from by
          simp [lookupObj, Ne.symm hne]]
      · rw [if_neg hlt]
        by_cases hj : l = j
        · subst hj
          simp [lookupObj]
        · rw [show lookupObj j ((l, w) :: objSet k v fs) = lookupObj j (objSet k v fs) from by
            simp [lookupObj, hj]]
          rw [show lookupObj j ((l, w) :: fs) = lookupObj j fs from by
            simp [lookupObj, hj]]
          exact lookup_objSet_ne hne v fs

theorem objSet_eq_objMod : ∀ {k : String} {fs : List (String × Json)},
    KeysSorted fs → (lookupObj k fs).isSome = true → ∀ v, objSet k v fs = objMod k v fs
  | k, [], _, h, v => by simp [lookupObj] at h
  | k, (l, w) :: fs, hs, h, v => by
    by_cases hl : k = l
    · subst hl
      simp [objSet, objMod]
    · have hmem : k ∈ keysOf ((l, w) :: fs) := lookup_isSome_iff_mem.mp h
      have hmemtail : k ∈ keysOf fs := by
        rcases List.mem_cons.mp hmem with he | hm
        · exact absurd he hl
        · exact hm
      have hlk : strLtB l k = true := by
        have hp : ∀ x ∈ keysOf fs, strLtB l x = true :=
          fun x hx => List.rel_of_pairwise_cons hs hx
        exact hp k hmemtail
      have hklt : strLtB k l = false := strLtB_asymm hlk
      have hlkne : l ≠ k := fun he => hl he.symm
      simp only [objSet, objMod, if_neg hl, if_neg (by simp [hklt] : ¬strLtB k l = true),
        if_neg hlkne]
      rw [show lookupObj k ((l, w) :: fs) = lookupObj k fs from by
        simp [lookupObj, hlkne]] at h
      rw [objSet_eq_objMod (List.Pairwise.sublist (List.sublist_cons_self _ _) hs) h v]

theorem mem_keysOf_objSet : ∀ {j k : String} {v : Json} {fs : List (String × Json)},
    j ∈ keysOf (objSet k v fs) → j = k ∨ j ∈ keysOf fs
  | j, k, v, [], h => by
    simp [objSet, keysOf] at h
    exact Or.inl h
  | j, k, v, (l, w) :: fs, h => by
    by_cases hl : k = l
    · subst hl
      simp only [objSet, if_pos rfl] at h
      simp [keysOf] at h ⊢
      tauto
    · simp only [objSet, if_neg hl] at h
      by_cases hlt : strLtB k l = true
      · rw [if_pos hlt] at h
        simp [keysOf] at h ⊢
        tauto
      · rw [if_neg hlt] at h
        simp only [keysOf, List.map_cons, List.mem_cons] at h ⊢
        rcases h with h | h
        · exact Or.inr (Or.inl h)
        · rcases mem_keysOf_objSet h with h | h
          · exact Or.inl h
          · exact Or.inr (Or.inr h)

theorem keysSorted_objSet : ∀ {k : String} {v : Json} {fs : List (String × Json)},
    KeysSorted fs → KeysSorted (objSet k v fs)
  | k, v, [], _ => by simp [objSet, KeysSorted, keysOf]
  | k, v, (l, w) :: fs, hs => by
    by_cases hl : k = l
    · subst hl
      simp only [objSet, if_pos rfl]
      exact hs
    · simp only [objSet, if_neg hl]
      by_cases hlt : strLtB k l = true
      · rw [if_pos hlt]
        refine List.Pairwise.cons ?_ hs
        intro x hx
        rcases List.mem_cons.mp hx with rfl | hx
        · exact hlt
        · exact strLtB_trans hlt (List.rel_of_pairwise_cons hs hx)
      · rw [if_neg hlt]
        have hlk : strLtB l k = true := by
          rcases strLtB_total (fun he => hl he) with ht | ht
          · exact absurd ht hlt
          · exact ht
        refine List.Pairwise.cons ?_ (keysSorted_objSet
          (List.Pairwise.sublist (List.sublist_cons_self _ _) hs))
        intro x hx
        rcases mem_keysOf_objSet hx with rfl | hx
        · exact hlk
        · exact List.rel_of_pairwise_cons hs hx

theorem objRemove_eq_filter : ∀ {k : String} {fs : List (String × Json)},
    (keysOf fs).Nodup → objRemove k fs = fs.filter (fun kv => kv.1 ≠ k)
  | k, [], _ => rfl
  | k, (l, w) :: fs, hnd => by
    by_cases hl : l = k
    · subst hl
      have hnotin : l ∉ keysOf fs := (List.nodup_cons.mp hnd).1
      have hself : List.filter (fun kv => !decide (kv.1 = l)) fs = fs := by
        apply List.filter_eq_self.mpr
        intro kv hkv
        have hmemk : kv.1 ∈ keysOf fs := List.mem_map.mpr ⟨kv, hkv, rfl⟩
        simp only [Bool.not_eq_true', decide_eq_false_iff_not]
        intro he
        exact hnotin (he ▸ hmemk)
      simp only [objRemove, if_pos rfl]
      simp [hself]
    · simp [objRemove, hl, objRemove_eq_filter (List.nodup_cons.mp hnd).2]

-- ===== patch application framing =====

theorem applyPatch_append (doc : Json) (l1 l2 : List PatchOp) :
    applyPatch doc (l1 ++ l2) = (applyPatch doc l1).bind (fun d => applyPatch d l2) := by
  induction l1 generalizing doc with
  | nil => simp [applyPatch]
  | cons op ops ih =>
    simp only [List.cons_append, applyPatch]
    cases applyOp doc op with
    | none => simp
    | some d => simpa using ih d

theorem prependPath_nil (op : PatchOp) : prependPath [] op = op := by
  cases op <;> simp [prependPath]

theorem prependPath_prependPath (p q : List Seg) (op : PatchOp) :
    prependPath p (prependPath q op) = prependPath (p ++ q) op := by
  cases op <;> simp [prependPath]

theorem applyOp_prepend_key {k : String} {fs : List (String × Json)} {v : Json}
    (op : PatchOp) (hv : lookupObj k fs = some v) (hs : KeysSorted fs)
    (hop : op ≠ .remove []) :
    applyOp (.obj fs) (prependPath [.key k] op)
      = (applyOp v op).map (fun c => .obj (objMod k c fs)) := by
  cases op with
  | add q w =>
    cases q with
    | nil =>
      show applyAdd w [.key k] (.obj fs) = (some w).map (fun c => .obj (objMod k c fs))
      rw [show applyAdd w [.key k] (.obj fs) = some (.obj (objSet k w fs)) from rfl]
      rw [objSet_eq_objMod hs (by rw [hv]; rfl) w]
      rfl
    | cons q0 q' =>
      show applyAdd w (.key k :: q0 :: q') (.obj fs) = _
      rw [show applyAdd w (.key k :: q0 :: q') (.obj fs)
          = (match lookupObj k fs with
             | some child => (applyAdd w (q0 :: q') child).map (fun c => .obj (objMod k c fs))
             | none => none) from rfl]
      rw [hv]
      rfl
  | remove q =>
    cases q with
    | nil => exact absurd rfl hop
    | cons q0 q' =>
      show applyRemove (.key k :: q0 :: q') (.obj fs) = _
      rw [show applyRemove (.key k :: q0 :: q') (.obj fs)
          = (match lookupObj k fs with
             | some child => (applyRemove (q0 :: q') child).map (fun c => .obj (objMod k c fs))
             | none => none) from rfl]
      rw [hv]
      rfl
  | replace q w =>
    show applyReplace w (.key k :: q) (.obj fs) = _
    rw [show applyReplace w (.key k :: q) (.obj fs)
        = (match lookupObj k fs with
           | some child => (applyReplace w q child).map (fun c => .obj (objMod k c fs))
           | none => none) from rfl]
    rw [hv]
    rfl

theorem applyPatch_prepend_key : ∀ (ops : List PatchOp) {k : String}
    {fs : List (String × Json)} {v : Json},
    lookupObj k fs = some v → KeysSorted fs → (∀ op ∈ ops, op ≠ .remove []) →
    applyPatch (.obj fs) (ops.map (prependPath [.key k]))
      = (applyPatch v ops).map (fun c => .obj (objMod k c fs))
  | [], k, fs, v, hv, hs, hops => by
    simp [applyPatch, objMod_self_lookup hv]
  | op :: ops, k, fs, v, hv, hs, hops => by
    rw [List.map_cons]
    rw [show applyPatch (.obj fs) (prependPath [.key k] op :: ops.map (prependPath [.key k]))
        = (match applyOp (.obj fs) (prependPath [.key k] op) with
           | some d => applyPatch d (ops.map (prependPath [.key k]))
           | none => none) from rfl]
    rw [applyOp_prepend_key op hv hs (hops op (List.mem_cons_self _ _))]
    cases hvo : applyOp v op with
    | none =>
      rw [show applyPatch v (op :: ops) = (match applyOp v op with
          | some d => applyPatch d ops
          | none => none) from rfl, hvo]
      rfl
    | some c =>
      simp only [Option.map_some']
      have hv' : lookupObj k (objMod k c fs) = some c :=
        lookup_objMod_self (by rw [hv]; rfl) c
      have hs' : KeysSorted (objMod k c fs) := by
        unfold KeysSorted
        rw [keysOf_objMod]
        exact hs
      rw [applyPatch_prepend_key ops hv' hs' (fun o ho => hops o (List.mem_cons_of_mem _ ho))]
      rw [show applyPatch v (op :: ops) = (match applyOp v op with
          | some d => applyPatch d ops
          | none => none) from rfl, hvo]
      rw [show (match some c with
          | some d => applyPatch d ops
          | none => none) = applyPatch c ops from rfl]
      cases applyPatch c ops with
      | none => rfl
      | some d => simp [objMod_objMod]

-- ===== diff path structure =====

theorem diffRemoves_prepend (p : List Seg) (bf af : List (String × Json)) :
    diffRemoves p bf af = (diffRemoves [] bf af).map (prependPath p) := by
  simp only [diffRemoves, List.map_map]
  apply List.map_congr_left
  intro kv _
  simp [prependPath]

theorem diffAdds_prepend (p : List Seg) (bf af : List (String × Json)) :
    diffAdds p bf af = (diffAdds [] bf af).map (prependPath p) := by
  simp only [diffAdds, List.map_map]
  apply List.map_congr_left
  intro kv _
  simp [prependPath]

mutual
theorem diffVal_prepend : ∀ (b a : Json) (p : List Seg),
    diffVal p b a = (diffVal [] b a).map (prependPath p)
  | .obj bf, .obj af, p => by
    by_cases hba : beq (.obj bf) (.obj af) = true
    · simp [diffVal, hba]
    · simp only [diffVal, hba, Bool.false_eq_true, if_false]
      rw [diffRemoves_prepend p bf af, diffAdds_prepend p bf af,
        diffCommon_prepend bf af p, List.map_append, List.map_append]
  | .null, a, p => by
    by_cases hba : beq .null a = true
    · simp [diffVal, hba]
    · cases a <;> simp [diffVal, hba, prependPath]
  | .bool x, a, p => by
    by_cases hba : beq (.bool x) a = true
    · simp [diffVal, hba]
    · cases a <;> simp [diffVal, hba, prependPath]
  | .num x, a, p => by
    by_cases hba : beq (.num x) a = true
    · simp [diffVal, hba]
    · cases a <;> simp [diffVal, hba, prependPath]
  | .str x, a, p => by
    by_cases hba : beq (.str x) a = true
    · simp [diffVal, hba]
    · cases a <;> simp [diffVal, hba, prependPath]
  | .arr xs, a, p => by
    by_cases hba : beq (.arr xs) a = true
    · simp [diffVal, hba]
    · cases a <;> simp [diffVal, hba, prependPath]
  | .obj bf, .null, p => by
    by_cases hba : beq (.obj bf) .null = true
    · simp [diffVal, hba]
    · simp [diffVal, hba, prependPath]
  | .obj bf, .bool x, p => by
    by_cases hba : beq (.obj bf) (.bool x) = true
    · simp [diffVal, hba]
    · simp [diffVal, hba, prependPath]
  | .obj bf, .num x, p => by
    by_cases hba : beq (.obj bf) (.num x) = true
    · simp [diffVal, hba]
    · simp [diffVal, hba, prependPath]
  | .obj bf, .str x, p => by
    by_cases hba : beq (.obj bf) (.str x) = true
    · simp [diffVal, hba]
    · simp [diffVal, hba, prependPath]
  | .obj bf, .arr xs, p => by
    by_cases hba : beq (.obj bf) (.arr xs) = true
    · simp [diffVal, hba]
    · simp [diffVal, hba, prependPath]

theorem diffCommon_prepend : ∀ (bf af : List (String × Json)) (p : List Seg),
    diffCommon p bf af = (diffCommon [] bf af).map (prependPath p)
  | [], af, p => by simp [diffCommon]
  | (k, v) :: bf, af, p => by
    rw [show diffCommon p ((k, v) :: bf) af = (match lookupObj k af with
        | some w => diffVal (p ++ [.key k]) v w
        | none => []) ++ diffCommon p bf af from rfl]
    rw [show diffCommon [] ((k, v) :: bf) af = (match lookupObj k af with
        | some w => diffVal ([] ++ [.key k]) v w
        | none => []) ++ diffCommon [] bf af from rfl]
    rw [List.map_append, diffCommon_prepend bf af p]
    congr 1
    cases hw : lookupObj k af with
    | none => rfl
    | some w =>
      rw [show (match some w with
          | some w => diffVal (p ++ [.key k]) v w
          | none => ([] : List PatchOp)) = diffVal (p ++ [.key k]) v w from rfl]
      rw [show (match some w with
          | some w => diffVal ([] ++ [.key k]) v w
          | none => ([] : List PatchOp)) = diffVal ([] ++ [.key k]) v w from rfl]
      rw [diffVal_prepend v w (p ++ [Seg.key k]), List.nil_append,
        diffVal_prepend v w [Seg.key k], List.map_map]
      apply List.map_congr_left
      intro op _
      simp [prependPath_prependPath]
end

mutual
theorem diffVal_no_root_remove : ∀ (b a : Json) (p : List Seg),
    PatchOp.remove [] ∉ diffVal p b a
  | .obj bf, .obj af, p => by
    by_cases hba : beq (.obj bf) (.obj af) = true
    · simp [diffVal, hba]
    · simp only [diffVal, hba, Bool.false_eq_true, if_false]
      intro hmem
      rcases List.mem_append.mp hmem with hmem | hmem
      · rcases List.mem_append.mp hmem with hmem | hmem
        · obtain ⟨kv, _, heq⟩ := List.mem_map.mp hmem
          have : p ++ [Seg.key kv.1] = [] := PatchOp.remove.inj heq
          simp at this
        · exact diffCommon_no_root_remove bf af p hmem
      · obtain ⟨kv, _, heq⟩ := List.mem_map.mp hmem
        exact PatchOp.noConfusion heq
  | .null, a, p => by
    by_cases hba : beq .null a = true
    · simp [diffVal, hba]
    · cases a <;> simp [diffVal, hba]
  | .bool x, a, p => by
    by_cases hba : beq (.bool x) a = true
    · simp [diffVal, hba]
    · cases a <;> simp [diffVal, hba]
  | .num x, a, p => by
    by_cases hba : beq (.num x) a = true
    · simp [diffVal, hba]
    · cases a <;> simp [diffVal, hba]
  | .str x, a, p => by
    by_cases hba : beq (.str x) a = true
    · simp [diffVal, hba]
    · cases a <;> simp [diffVal, hba]
  | .arr xs, a, p => by
    by_cases hba : beq (.arr xs) a = true
    · simp [diffVal, hba]
    · cases a <;> simp [diffVal, hba]
  | .obj bf, .null, p => by
    by_cases hba : beq (.obj bf) .null = true
    · simp [diffVal, hba]
    · simp [diffVal, hba]
  | .obj bf, .bool x, p => by
    by_cases hba : beq (.obj bf) (.bool x) = true
    · simp [diffVal, hba]
    · simp [diffVal, hba]
  | .obj bf, .num x, p => by
    by_cases hba : beq (.obj bf) (.num x) = true
    · simp [diffVal, hba]
    · simp [diffVal, hba]
  | .obj bf, .str x, p => by
    by_cases hba : beq (.obj bf) (.str x) = true
    · simp [diffVal, hba]
    · simp [diffVal, hba]
  | .obj bf, .arr xs, p => by
    by_cases hba : beq (.obj bf) (.arr xs) = true
    · simp [diffVal, hba]
    · simp [diffVal, hba]

theorem diffCommon_no_root_remove : ∀ (bf af : List (String × Json)) (p : List Seg),
    PatchOp.remove [] ∉ diffCommon p bf af
  | [], af, p => by simp [diffCommon]
  | (k, v) :: bf, af, p => by
    rw [show diffCommon p ((k, v) :: bf) af = (match lookupObj k af with
        | some w => diffVal (p ++ [.key k]) v w
        | none => []) ++ diffCommon p bf af from rfl]
    intro hmem
    rcases List.mem_append.mp hmem with hmem | hmem
    · cases hw : lookupObj k af with
      | none =>
        rw [hw] at hmem
        simp at hmem
      | some w =>
        rw [hw] at hmem
        exact diffVal_no_root_remove v w (p ++ [.key k]) hmem
    · exact diffCommon_no_root_remove bf af p hmem
end

-- ===== stage lemmas for the round-trip =====

theorem applyPatch_removes : ∀ (ks : List String) (fs : List (String × Json)),
    (keysOf fs).Nodup → ks.Nodup → (∀ k ∈ ks, k ∈ keysOf fs) →
    applyPatch (.obj fs) (ks.map (fun k => .remove [.key k]))
      = some (.obj (fs.filter (fun kv => !(ks.contains kv.1))))
  | [], fs, hnd, hknd, hsub => by
    rw [show fs.filter (fun kv => !(([] : List String).contains kv.1)) = fs from
      List.filter_eq_self.mpr (fun kv _ => by simp)]
    rfl
  | k :: ks, fs, hnd, hknd, hsub => by
    have hmem : k ∈ keysOf fs := hsub k (List.mem_cons_self _ _)
    have hisSome : (lookupObj k fs).isSome = true := lookup_isSome_iff_mem.mpr hmem
    rw [List.map_cons]
    rw [show applyPatch (.obj fs) (.remove [.key k] :: ks.map (fun k => .remove [.key k]))
        = (match applyOp (.obj fs) (.remove [.key k]) with
           | some d => applyPatch d (ks.map (fun k => .remove [.key k]))
           | none => none) from rfl]
    rw [show applyOp (.obj fs) (.remove [.key k])
        = (if (lookupObj k fs).isSome then some (.obj (objRemove k fs)) else none) from rfl]
    rw [if_pos hisSome]
    rw [show (match some (Json.obj (objRemove k fs)) with
        | some d => applyPatch d (ks.map (fun k => .remove [.key k]))
        | none => none)
        = applyPatch (.obj (objRemove k fs)) (ks.map (fun k => .remove [.key k])) from rfl]
    rw [objRemove_eq_filter hnd]
    have hndks := List.nodup_cons.mp hknd
    have hsubl : (keysOf (fs.filter (fun kv => kv.1 ≠ k))).Sublist (keysOf fs) :=
      (List.filter_sublist fs).map Prod.fst
    have hnd' : (keysOf (fs.filter (fun kv => kv.1 ≠ k))).Nodup := hnd.sublist hsubl
    have hsub' : ∀ k' ∈ ks, k' ∈ keysOf (fs.filter (fun kv => kv.1 ≠ k)) := by
      intro k' hk'
      have hne : k' ≠ k := by
        rintro rfl
        exact hndks.1 hk'
      obtain ⟨kv, hkv, rfl⟩ := List.mem_map.mp (hsub k' (List.mem_cons_of_mem _ hk'))
      exact List.mem_map.mpr ⟨kv, List.mem_filter.mpr ⟨hkv, by simpa using hne⟩, rfl⟩
    rw [applyPatch_removes ks (fs.filter (fun kv => kv.1 ≠ k)) hnd' hndks.2 hsub']
    rw [List.filter_filter]
    congr 2
    apply List.filter_congr
    intro kv _
    by_cases hx : kv.1 = k
    · simp [hx]
    · simp [List.contains_cons, hx]

theorem keysOf_updCommon : ∀ (af cur : List (String × Json)),
    keysOf (updCommon af cur) = keysOf cur
  | af, [] => rfl
  | af, (k0, v0) :: cur => by
    cases haf : lookupObj k0 af with
    | none =>
      rw [show updCommon af ((k0, v0) :: cur) = (k0, v0) :: updCommon af cur from by
        simp [updCommon, haf]]
      rw [show keysOf ((k0, v0) :: updCommon af cur)
          = k0 :: keysOf (updCommon af cur) from rfl]
      rw [keysOf_updCommon af cur]
      rfl
    | some w =>
      rw [show updCommon af ((k0, v0) :: cur) = (k0, w) :: updCommon af cur from by
        simp [updCommon, haf]]
      rw [show keysOf ((k0, w) :: updCommon af cur)
          = k0 :: keysOf (updCommon af cur) from rfl]
      rw [keysOf_updCommon af cur]
      rfl

theorem lookup_updCommon : ∀ (af cur : List (String × Json)) (k : String),
    lookupObj k (updCommon af cur)
      = (lookupObj k cur).map (fun v => (lookupObj k af).getD v)
  | af, [], k => rfl
  | af, (k0, v0) :: cur, k => by
    by_cases hk : k0 = k
    · subst hk
      cases haf : lookupObj k0 af with
      | none =>
        rw [show updCommon af ((k0, v0) :: cur) = (k0, v0) :: updCommon af cur from by
          simp [updCommon, haf]]
        simp [lookupObj, haf]
      | some w =>
        rw [show updCommon af ((k0, v0) :: cur) = (k0, w) :: updCommon af cur from by
          simp [updCommon, haf]]
        simp [lookupObj, haf]
    · have hstep : ∀ z, lookupObj k ((k0, z) :: updCommon af cur)
          = lookupObj k (updCommon af cur) := by
        intro z
        simp [lookupObj, hk]
      cases haf : lookupObj k0 af with
      | none =>
        rw [show updCommon af ((k0, v0) :: cur) = (k0, v0) :: updCommon af cur from by
          simp [updCommon, haf]]
        rw [hstep v0, lookup_updCommon af cur k,
          show lookupObj k ((k0, v0) :: cur) = lookupObj k cur from by simp [lookupObj, hk]]
      | some w =>
        rw [show updCommon af ((k0, v0) :: cur) = (k0, w) :: updCommon af cur from by
          simp [updCommon, haf]]
        rw [hstep w, lookup_updCommon af cur k,
          show lookupObj k ((k0, v0) :: cur) = lookupObj k cur from by simp [lookupObj, hk]]

theorem applyPatch_commons : ∀ (bf pre af : List (String × Json)),
    (keysOf bf).Nodup →
    (∀ kv ∈ bf, kv.1 ∉ keysOf pre) →
    KeysSorted (pre ++ bf.filter (fun kv => (lookupObj kv.1 af).isSome)) →
    (∀ kv ∈ bf, ∀ w, lookupObj kv.1 af = some w →
        applyPatch kv.2 (diffVal [] kv.2 w) = some w) →
    applyPatch (.obj (pre ++ bf.filter (fun kv => (lookupObj kv.1 af).isSome)))
        (diffCommon [] bf af)
      = some (.obj (pre ++ updCommon af (bf.filter (fun kv => (lookupObj kv.1 af).isSome))))
  | [], pre, af, _, _, _, _ => by
    simp [diffCommon, applyPatch, updCommon]
  | (k, v) :: bf, pre, af, hnd, hdisj, hsorted, hrt => by
    have hndk := List.nodup_cons.mp (show ((k :: keysOf bf).Nodup) from hnd)
    rw [show diffCommon [] ((k, v) :: bf) af = (match lookupObj k af with
        | some w => diffVal ([] ++ [.key k]) v w
        | none => []) ++ diffCommon [] bf af from rfl]
    cases hw : lookupObj k af with
    | none =>
      have hfil : ((k, v) :: bf).filter (fun kv => (lookupObj kv.1 af).isSome)
          = bf.filter (fun kv => (lookupObj kv.1 af).isSome) := by
        simp [List.filter_cons, hw]
      rw [hfil] at hsorted ⊢
      rw [List.nil_append]
      exact applyPatch_commons bf pre af hndk.2
        (fun kv hkv => hdisj kv (List.mem_cons_of_mem _ hkv)) hsorted
        (fun kv hkv => hrt kv (List.mem_cons_of_mem _ hkv))
    | some w =>
      have hfil : ((k, v) :: bf).filter (fun kv => (lookupObj kv.1 af).isSome)
          = (k, v) :: bf.filter (fun kv => (lookupObj kv.1 af).isSome) := by
        simp [List.filter_cons, hw]
      rw [hfil] at hsorted ⊢
      rw [show (match some w with
          | some w => diffVal ([] ++ [.key k]) v w
          | none => ([] : List PatchOp)) = diffVal [Seg.key k] v w from rfl]
      rw [applyPatch_append]
      have hprenone : lookupObj k pre = none :=
        lookup_eq_none_iff_not_mem.mpr (hdisj (k, v) (List.mem_cons_self _ _))
      have hv : lookupObj k
          (pre ++ (k, v) :: bf.filter (fun kv => (lookupObj kv.1 af).isSome)) = some v := by
        rw [lookup_append_left hprenone]
        simp [lookupObj]
      rw [diffVal_prepend v w [Seg.key k]]
      rw [applyPatch_prepend_key (diffVal [] v w) hv hsorted
        (fun op hop he => (diffVal_no_root_remove v w [] (he ▸ hop)))]
      rw [hrt (k, v) (List.mem_cons_self _ _) w hw]
      rw [show (some w).map (fun c => Json.obj (objMod k c
          (pre ++ (k, v) :: bf.filter (fun kv => (lookupObj kv.1 af).isSome))))
          = some (Json.obj (objMod k w
            (pre ++ (k, v) :: bf.filter (fun kv => (lookupObj kv.1 af).isSome)))) from rfl]
      rw [objMod_append_left hprenone]
      rw [show objMod k w ((k, v) :: bf.filter (fun kv => (lookupObj kv.1 af).isSome))
          = (k, w) :: bf.filter (fun kv => (lookupObj kv.1 af).isSome) from by
          simp [objMod]]
      rw [show Option.bind (some (Json.obj
            (pre ++ (k, w) :: bf.filter (fun kv => (lookupObj kv.1 af).isSome))))
          (fun d => applyPatch d (diffCommon [] bf af))
          = applyPatch (Json.obj
            (pre ++ (k, w) :: bf.filter (fun kv => (lookupObj kv.1 af).isSome)))
            (diffCommon [] bf af) from rfl]
      have hassoc : pre ++ (k, w) :: bf.filter (fun kv => (lookupObj kv.1 af).isSome)
          = (pre ++ [(k, w)]) ++ bf.filter (fun kv => (lookupObj kv.1 af).isSome) := by
        rw [List.append_cons]
      rw [hassoc]
      have hdisj' : ∀ kv ∈ bf, kv.1 ∉ keysOf (pre ++ [(k, w)]) := by
        intro kv hkv hmem
        rw [show keysOf (pre ++ [(k, w)]) = keysOf pre ++ [k] from by
          simp [keysOf]] at hmem
        rcases List.mem_append.mp hmem with hmem | hmem
        · exact hdisj kv (List.mem_cons_of_mem _ hkv) hmem
        · have : kv.1 = k := List.mem_singleton.mp hmem
          exact hndk.1 (this ▸ List.mem_map.mpr ⟨kv, hkv, rfl⟩)
      have hsorted' : KeysSorted ((pre ++ [(k, w)])
          ++ bf.filter (fun kv => (lookupObj kv.1 af).isSome)) := by
        unfold KeysSorted at hsorted ⊢
        rw [show keysOf ((pre ++ [(k, w)]) ++ bf.filter (fun kv => (lookupObj kv.1 af).isSome))
            = keysOf (pre ++ (k, v) :: bf.filter (fun kv => (lookupObj kv.1 af).isSome)) from by
          simp [keysOf]]
        exact hsorted
      rw [applyPatch_commons bf (pre ++ [(k, w)]) af hndk.2 hdisj' hsorted'
        (fun kv hkv => hrt kv (List.mem_cons_of_mem _ hkv))]
      rw [show updCommon af ((k, v) :: bf.filter (fun kv => (lookupObj kv.1 af).isSome))
          = (k, w) :: updCommon af (bf.filter (fun kv => (lookupObj kv.1 af).isSome)) from by
          simp [updCommon, hw]]
      simp

theorem applyPatch_adds : ∀ (newkvs fs : List (String × Json)),
    applyPatch (.obj fs) (newkvs.map (fun kv => .add [.key kv.1] kv.2))
      = some (.obj (newkvs.foldl (fun acc kv => objSet kv.1 kv.2 acc) fs))
  | [], fs => by simp [applyPatch]
  | (k, v) :: newkvs, fs => by
    rw [List.map_cons]
    rw [show applyPatch (.obj fs)
        (.add [.key k] v :: newkvs.map (fun kv => .add [.key kv.1] kv.2))
        = (match applyOp (.obj fs) (.add [.key k] v) with
           | some d => applyPatch d (newkvs.map (fun kv => .add [.key kv.1] kv.2))
           | none => none) from rfl]
    rw [show applyOp (.obj fs) (.add [.key k] v) = some (.obj (objSet k v fs)) from rfl]
    rw [show (match some (Json.obj (objSet k v fs)) with
        | some d => applyPatch d (newkvs.map (fun kv => .add [.key kv.1] kv.2))
        | none => none)
        = applyPatch (.obj (objSet k v fs)) (newkvs.map (fun kv => .add [.key kv.1] kv.2))
        from rfl]
    rw [applyPatch_adds newkvs (objSet k v fs)]
    rfl

theorem keysSorted_foldl_objSet : ∀ (newkvs fs : List (String × Json)),
    KeysSorted fs →
    KeysSorted (newkvs.foldl (fun acc kv => objSet kv.1 kv.2 acc) fs)
  | [], fs, h => h
  | (k, v) :: newkvs, fs, h =>
    keysSorted_foldl_objSet newkvs (objSet k v fs) (keysSorted_objSet h)

theorem lookup_foldl_objSet : ∀ (newkvs fs : List (String × Json)) (k : String),
    (keysOf newkvs).Nodup →
    lookupObj k (newkvs.foldl (fun acc kv => objSet kv.1 kv.2 acc) fs)
      = (match lookupObj k newkvs with
         | some v => some v
         | none => lookupObj k fs)
  | [], fs, k, _ => rfl
  | (k0, v0) :: newkvs, fs, k, hnd => by
    have hndk := List.nodup_cons.mp (show ((k0 :: keysOf newkvs).Nodup) from hnd)
    rw [show ((k0, v0) :: newkvs).foldl (fun acc kv => objSet kv.1 kv.2 acc) fs
        = newkvs.foldl (fun acc kv => objSet kv.1 kv.2 acc) (objSet k0 v0 fs) from rfl]
    rw [lookup_foldl_objSet newkvs (objSet k0 v0 fs) k hndk.2]
    by_cases hk : k0 = k
    · subst hk
      have hnone : lookupObj k0 newkvs = none :=
        lookup_eq_none_iff_not_mem.mpr hndk.1
      rw [hnone, lookup_objSet_self]
      rw [show lookupObj k0 ((k0, v0) :: newkvs) = some v0 from by simp [lookupObj]]
    · rw [lookup_objSet_ne (fun he => hk he.symm) v0 fs]
      rw [show lookupObj k ((k0, v0) :: newkvs) = lookupObj k newkvs from by
        simp [lookupObj, hk]]

theorem sortedAssoc_ext : ∀ (l1 l2 : List (String × Json)),
    KeysSorted l1 → KeysSorted l2 →
    (∀ k, lookupObj k l1 = lookupObj k l2) → l1 = l2
  | [], [], _, _, _ => rfl
  | [], (k, v) :: l2, _, _, h => by
    have h1 := h k
    rw [show lookupObj k ((k, v) :: l2) = some v from by simp [lookupObj]] at h1
    simp [lookupObj] at h1
  | (k, v) :: l1, [], _, _, h => by
    have h1 := h k
    rw [show lookupObj k ((k, v) :: l1) = some v from by simp [lookupObj]] at h1
    simp [lookupObj] at h1
  | (k, v) :: l1, (k', v') :: l2, hs1, hs2, h => by
    have hkk : k = k' := by
      by_contra hne
      have h1 := h k
      rw [show lookupObj k ((k, v) :: l1) = some v from by simp [lookupObj]] at h1
      have hmem : k ∈ keysOf ((k', v') :: l2) :=
        lookup_isSome_iff_mem.mp (by rw [← h1]; rfl)
      have h2 := h k'
      rw [show lookupObj k' ((k', v') :: l2) = some v' from by simp [lookupObj]] at h2
      have hmem2 : k' ∈ keysOf ((k, v) :: l1) :=
        lookup_isSome_iff_mem.mp (by rw [h2]; rfl)
      rw [show keysOf ((k', v') :: l2) = k' :: keysOf l2 from rfl] at hmem
      rw [show keysOf ((k, v) :: l1) = k :: keysOf l1 from rfl] at hmem2
      have hk'k : strLtB k' k = true := by
        rcases List.mem_cons.mp hmem with he | hm
        · exact absurd he hne
        · exact List.rel_of_pairwise_cons hs2 hm
      have hkk' : strLtB k k' = true := by
        rcases List.mem_cons.mp hmem2 with he | hm
        · exact absurd he.symm hne
        · exact List.rel_of_pairwise_cons hs1 hm
      rw [strLtB_asymm hkk'] at hk'k
      exact Bool.false_ne_true hk'k
    subst hkk
    have hvv : v = v' := by
      have h1 := h k
      rw [show lookupObj k ((k, v) :: l1) = some v from by simp [lookupObj],
        show lookupObj k ((k, v') :: l2) = some v' from by simp [lookupObj]] at h1
      exact Option.some.inj h1
    subst hvv
    have htails : ∀ j, lookupObj j l1 = lookupObj j l2 := by
      intro j
      by_cases hj : k = j
      · subst hj
        have h1 : lookupObj k l1 = none := lookup_eq_none_iff_not_mem.mpr (by
          intro hm
          exact (strLtB_ne (List.rel_of_pairwise_cons hs1 hm)) rfl)
        have h2 : lookupObj k l2 = none := lookup_eq_none_iff_not_mem.mpr (by
          intro hm
          exact (strLtB_ne (List.rel_of_pairwise_cons hs2 hm)) rfl)
        rw [h1, h2]
      · have h1 := h j
        rw [show lookupObj j ((k, v) :: l1) = lookupObj j l1 from by simp [lookupObj, hj],
          show lookupObj j ((k, v) :: l2) = lookupObj j l2 from by simp [lookupObj, hj]] at h1
        exact h1
    rw [sortedAssoc_ext l1 l2 hs1.of_cons hs2.of_cons htails]

theorem lookup_filter_keyPred (pk : String → Bool) :
    ∀ (fs : List (String × Json)) (p : (String × Json) → Bool),
    (∀ kv, p kv = pk kv.1) → ∀ k,
    lookupObj k (fs.filter p) = if pk k then lookupObj k fs else none
  | [], p, hp, k => by cases hpk : pk k <;> simp [lookupObj]
  | (l, w) :: fs, p, hp, k => by
    by_cases hl : l = k
    · subst hl
      cases hpk : pk l with
      | true =>
        rw [show ((l, w) :: fs).filter p = (l, w) :: fs.filter p from by
          simp [List.filter_cons, hp (l, w), hpk]]
        simp [lookupObj, hpk]
      | false =>
        rw [show ((l, w) :: fs).filter p = fs.filter p from by
          simp [List.filter_cons, hp (l, w), hpk]]
        rw [lookup_filter_keyPred pk fs p hp l, hpk]
        simp
    · have hstep : lookupObj k ((l, w) :: fs) = lookupObj k fs := by simp [lookupObj, hl]
      cases hpl : pk l with
      | true =>
        rw [show ((l, w) :: fs).filter p = (l, w) :: fs.filter p from by
          simp [List.filter_cons, hp (l, w), hpl]]
        rw [show lookupObj k ((l, w) :: fs.filter p) = lookupObj k (fs.filter p) from by
          simp [lookupObj, hl]]
        rw [lookup_filter_keyPred pk fs p hp k, hstep]
      | false =>
        rw [show ((l, w) :: fs).filter p = fs.filter p from by
          simp [List.filter_cons, hp (l, w), hpl]]
        rw [lookup_filter_keyPred pk fs p hp k, hstep]

-- ===== the round-trip theorem =====

theorem diffVal_fallback (b a : Json) (hba : beq b a = false)
    (hno : ∀ bf af, b = Json.obj bf → a = Json.obj af → False) (p : List Seg) :
    diffVal p b a = [.replace p a] := by
  cases b <;> cases a <;>
    first
      | exact (hno _ _ rfl rfl).elim
      | exact (Bool.true_ne_false hba).elim
      | simp [diffVal, hba]

theorem diffVal_refl (b : Json) (p : List Seg) : diffVal p b b = [] := by
  have hbb : beq b b = true := (beq_iff b b).mpr rfl
  cases b <;> simp [diffVal, hbb]

theorem applyPatch_diffVal_aux : ∀ (n : Nat) (b a : Json), sizeOf b ≤ n →
    Canon b → Canon a → applyPatch b (diffVal [] b a) = some a := by
  intro n
  induction n with
  | zero =>
    intro b a hsz _ _
    exfalso
    cases b <;> simp at hsz
  | succ n ih =>
    intro b a hsz hb ha
    by_cases hba : beq b a = true
    · obtain rfl : b = a := (beq_iff b a).mp hba
      rw [diffVal_refl b []]
      rfl
    · by_cases hobj : ∃ bf af, b = Json.obj bf ∧ a = Json.obj af
      case neg =>
        have hrep := diffVal_fallback b a (Bool.eq_false_iff.mpr hba)
          (fun bf af hb' ha' => hobj ⟨bf, af, hb', ha'⟩) []
        rw [hrep]
        rw [show applyPatch b [.replace [] a] = (match applyOp b (.replace [] a) with
            | some d => applyPatch d []
            | none => none) from rfl]
        rw [show applyOp b (.replace [] a) = some a from rfl]
        rfl
      case pos =>
        obtain ⟨bf, af, rfl, rfl⟩ := hobj
        have hbs : KeysSorted bf := canon_obj_sorted hb
        have has : KeysSorted af := canon_obj_sorted ha
        have hbnd : (keysOf bf).Nodup := keysSorted_nodup hbs
        have hand : (keysOf af).Nodup := keysSorted_nodup has
        rw [show diffVal [] (.obj bf) (.obj af)
            = diffRemoves [] bf af ++ diffCommon [] bf af ++ diffAdds [] bf af from by
            simp [diffVal, hba]]
        rw [applyPatch_append _ (diffRemoves [] bf af ++ diffCommon [] bf af)
          (diffAdds [] bf af)]
        rw [applyPatch_append _ (diffRemoves [] bf af) (diffCommon [] bf af)]
        -- stage 1: removals
        have hrm : applyPatch (.obj bf) (diffRemoves [] bf af)
            = some (.obj (bf.filter (fun kv => (lookupObj kv.1 af).isSome))) := by
          rw [show diffRemoves [] bf af
              = ((bf.filter (fun kv => (lookupObj kv.1 af).isNone)).map Prod.fst).map
                  (fun k => .remove [.key k]) from by
              simp [diffRemoves, List.map_map]]
          have hksnd : ((bf.filter (fun kv => (lookupObj kv.1 af).isNone)).map Prod.fst).Nodup :=
            hbnd.sublist ((List.filter_sublist bf).map Prod.fst)
          have hkssub : ∀ k ∈ (bf.filter (fun kv => (lookupObj kv.1 af).isNone)).map Prod.fst,
              k ∈ keysOf bf := by
            intro k hk
            obtain ⟨kv, hkv, rfl⟩ := List.mem_map.mp hk
            exact List.mem_map.mpr ⟨kv, (List.mem_filter.mp hkv).1, rfl⟩
          rw [applyPatch_removes _ bf hbnd hksnd hkssub]
          congr 2
          apply List.filter_congr
          intro kv hkv
          cases haf : lookupObj kv.1 af with
          | some w =>
            have hnotmem : kv.1 ∉ (bf.filter
                (fun kv => (lookupObj kv.1 af).isNone)).map Prod.fst := by
              intro hmem
              obtain ⟨kv', hkv', hfst⟩ := List.mem_map.mp hmem
              have hP := (List.mem_filter.mp hkv').2
              rw [hfst, haf] at hP
              simp at hP
            simp [haf, hnotmem]
          | none =>
            have hmem : kv.1 ∈ (bf.filter
                (fun kv => (lookupObj kv.1 af).isNone)).map Prod.fst :=
              List.mem_map.mpr ⟨kv, List.mem_filter.mpr ⟨hkv, by simp [haf]⟩, rfl⟩
            simp [haf, hmem]
        rw [hrm]
        -- stage 2: common keys
        have hfilsorted : KeysSorted (bf.filter (fun kv => (lookupObj kv.1 af).isSome)) :=
          hbs.sublist ((List.filter_sublist bf).map Prod.fst)
        have hrt : ∀ kv ∈ bf, ∀ w, lookupObj kv.1 af = some w →
            applyPatch kv.2 (diffVal [] kv.2 w) = some w := by
          intro kv hkv w hw
          have h1 : sizeOf kv < sizeOf bf := List.sizeOf_lt_of_mem hkv
          have h2 : sizeOf kv.2 < sizeOf kv := by
            obtain ⟨k1, v1⟩ := kv
            simp
          have h3 : sizeOf (Json.obj bf) = 1 + sizeOf bf := by simp
          have hsz' : sizeOf kv.2 ≤ n := by omega
          exact ih kv.2 w hsz' (canon_obj_fields hb kv hkv)
            (canon_obj_fields ha (kv.1, w) (lookup_mem hw))
        have hcm := applyPatch_commons bf [] af hbnd
          (by intro kv _ hmem; exact (List.not_mem_nil _) hmem)
          (by simpa using hfilsorted) hrt
        rw [List.nil_append] at hcm
        rw [show Option.bind (some (Json.obj
            (bf.filter (fun kv => (lookupObj kv.1 af).isSome))))
            (fun d => applyPatch d (diffCommon [] bf af))
            = applyPatch (Json.obj (bf.filter (fun kv => (lookupObj kv.1 af).isSome)))
              (diffCommon [] bf af) from rfl]
        rw [hcm]
        rw [List.nil_append]
        -- stage 3: additions
        rw [show Option.bind (some (Json.obj (updCommon af
            (bf.filter (fun kv => (lookupObj kv.1 af).isSome)))))
            (fun d => applyPatch d (diffAdds [] bf af))
            = applyPatch (Json.obj (updCommon af
              (bf.filter (fun kv => (lookupObj kv.1 af).isSome))))
              (diffAdds [] bf af) from rfl]
        rw [show diffAdds [] bf af
            = (af.filter (fun kv => (lookupObj kv.1 bf).isNone)).map
                (fun kv => .add [.key kv.1] kv.2) from by simp [diffAdds]]
        rw [applyPatch_adds]
        -- final: the result is exactly af
        have hupdsorted : KeysSorted (updCommon af
            (bf.filter (fun kv => (lookupObj kv.1 af).isSome))) := by
          unfold KeysSorted
          rw [keysOf_updCommon]
          exact hfilsorted
        have hnewnd : (keysOf (af.filter (fun kv => (lookupObj kv.1 bf).isNone))).Nodup :=
          hand.sublist ((List.filter_sublist af).map Prod.fst)
        have hfin : (af.filter (fun kv => (lookupObj kv.1 bf).isNone)).foldl
            (fun acc kv => objSet kv.1 kv.2 acc)
            (updCommon af (bf.filter (fun kv => (lookupObj kv.1 af).isSome))) = af := by
          apply sortedAssoc_ext _ _
            (keysSorted_foldl_objSet _ _ hupdsorted) has
          intro k
          rw [lookup_foldl_objSet _ _ k hnewnd]
          rw [lookup_filter_keyPred (fun j => (lookupObj j bf).isNone) af _
            (fun kv => rfl) k]
          rw [lookup_updCommon]
          rw [lookup_filter_keyPred (fun j => (lookupObj j af).isSome) bf _
            (fun kv => rfl) k]
          cases haf : lookupObj k af with
          | none =>
            cases hbf : lookupObj k bf with
            | none => simp [haf]
            | some v => simp [haf]
          | some w =>
            cases hbf : lookupObj k bf with
            | none => simp [haf, hbf]
            | some v => simp [haf, hbf]
        rw [hfin]

/-- C1: the JSON Patch round-trip law — applying the patch generated by
`json_patch(before, after)` to `before` yields exactly `after`, for canonical
JSON documents (the canonical representative of a Python `dict` under
order-insensitive `dict` equality). -/
theorem json_patch_roundtrip (before after : Json) (hb : Canon before)
    (ha : Canon after) :
    apply_json_patch before (json_patch before after) = some after :=
  applyPatch_diffVal_aux (sizeOf before) before after (Nat.le_refl _) hb ha

/-- C1 witness: the round-trip at concrete nested documents. -/
theorem json_patch_roundtrip_spot :
    (Canon (.obj [("m", .obj [("x", .num 1), ("y", .num 2)]), ("t", .str "A")])
      ∧ Canon (.obj [("m", .obj [("y", .num 5), ("z", .null)]), ("u", .arr [.num 1])]))
    ∧ apply_json_patch
        (.obj [("m", .obj [("x", .num 1), ("y", .num 2)]), ("t", .str "A")])
        (json_patch
          (.obj [("m", .obj [("x", .num 1), ("y", .num 2)]), ("t", .str "A")])
          (.obj [("m", .obj [("y", .num 5), ("z", .null)]), ("u", .arr [.num 1])]))
      = some (.obj [("m", .obj [("y", .num 5), ("z", .null)]), ("u", .arr [.num 1])]) :=
  ⟨⟨rfl, rfl⟩,
   json_patch_roundtrip
     (.obj [("m", .obj [("x", .num 1), ("y", .num 2)]), ("t", .str "A")])
     (.obj [("m", .obj [("y", .num 5), ("z", .null)]), ("u", .arr [.num 1])])
     rfl rfl⟩

end Json

-- ===== C5: reconstruction at a version =====

theorem auditRowLE_total (r s : AuditRow) :
    auditRowLE r s = true ∨ auditRowLE s r = true := by
  simp only [auditRowLE]
  split_ifs <;> simp <;> omega

theorem auditRowLE_trans {r s t : AuditRow} (h1 : auditRowLE r s = true)
    (h2 : auditRowLE s t = true) : auditRowLE r t = true := by
  simp only [auditRowLE] at h1 h2 ⊢
  split_ifs at h1 h2 ⊢ <;> simp_all <;> omega

theorem mem_insertRow : ∀ {x r : AuditRow} {l : List AuditRow},
    x ∈ insertRow r l → x = r ∨ x ∈ l
  | x, r, [], h => by
    rw [show insertRow r [] = [r] from rfl] at h
    exact Or.inl (List.mem_singleton.mp h)
  | x, r, s :: l, h => by
    rw [show insertRow r (s :: l)
        = if auditRowLE r s then r :: s :: l else s :: insertRow r l from rfl] at h
    by_cases hle : auditRowLE r s = true
    · rw [if_pos hle] at h
      exact List.mem_cons.mp h
    · rw [if_neg hle] at h
      rcases List.mem_cons.mp h with rfl | h
      · exact Or.inr (List.mem_cons_self _ _)
      · rcases mem_insertRow h with rfl | h
        · exact Or.inl rfl
        · exact Or.inr (List.mem_cons_of_mem _ h)

theorem insertRow_perm (r : AuditRow) : ∀ l : List AuditRow,
    (insertRow r l).Perm (r :: l)
  | [] => by
    rw [show insertRow r [] = [r] from rfl]
  | s :: l => by
    rw [show insertRow r (s :: l)
        = if auditRowLE r s then r :: s :: l else s :: insertRow r l from rfl]
    by_cases hle : auditRowLE r s = true
    · rw [if_pos hle]
    · rw [if_neg hle]
      exact ((insertRow_perm r l).cons s).trans (List.Perm.swap r s l)

theorem sortRows_perm : ∀ l : List AuditRow, (sortRows l).Perm l
  | [] => List.Perm.refl _
  | r :: l => by
    rw [show sortRows (r :: l) = insertRow r (sortRows l) from rfl]
    exact (insertRow_perm r (sortRows l)).trans ((sortRows_perm l).cons r)

theorem insertRow_sorted {r : AuditRow} : ∀ {l : List AuditRow},
    l.Pairwise (fun a b => auditRowLE a b = true) →
    (insertRow r l).Pairwise (fun a b => auditRowLE a b = true)
  | [], _ => by
    rw [show insertRow r [] = [r] from rfl]
    simp
  | s :: l, hs => by
    rw [show insertRow r (s :: l)
        = if auditRowLE r s then r :: s :: l else s :: insertRow r l from rfl]
    by_cases hle : auditRowLE r s = true
    · rw [if_pos hle]
      refine List.Pairwise.cons ?_ hs
      intro x hx
      rcases List.mem_cons.mp hx with rfl | hx
      · exact hle
      · exact auditRowLE_trans hle (List.rel_of_pairwise_cons hs hx)
    · rw [if_neg hle]
      have hsr : auditRowLE s r = true := by
        rcases auditRowLE_total r s with ht | ht
        · exact absurd ht hle
        · exact ht
      refine List.Pairwise.cons ?_ (insertRow_sorted hs.of_cons)
      intro x hx
      rcases mem_insertRow hx with rfl | hx
      · exact hsr
      · exact List.rel_of_pairwise_cons hs hx

theorem sortRows_sorted : ∀ l : List AuditRow,
    (sortRows l).Pairwise (fun a b => auditRowLE a b = true)
  | [] => List.Pairwise.nil
  | r :: l => by
    rw [show sortRows (r :: l) = insertRow r (sortRows l) from rfl]
    exact insertRow_sorted (sortRows_sorted l)

theorem foldlM_reconstructStep : ∀ (rs : List AuditRow) (st : Json),
    rs.foldlM reconstructStep st
      = (match applyPatchSeq st ((rs.filter (fun r => !(r.version == 1)
            && !r.patch_json.isEmpty)).map (fun r => r.patch_json)) with
         | some s => Except.ok s
         | none => Except.error AuditError.cannotApplyPatch)
  | [], st => rfl
  | r :: rs, st => by
    rw [List.foldlM_cons]
    by_cases hv : r.version = 1
    · have hfil : (r :: rs).filter (fun r => !(r.version == 1) && !r.patch_json.isEmpty)
          = rs.filter (fun r => !(r.version == 1) && !r.patch_json.isEmpty) := by
        simp [List.filter_cons, hv]
      rw [hfil]
      rw [show reconstructStep st r = Except.ok st from by simp [reconstructStep, hv]]
      rw [show ((Except.ok st : Except AuditError Json)
          >>= fun s => rs.foldlM reconstructStep s) = rs.foldlM reconstructStep st from rfl]
      exact foldlM_reconstructStep rs st
    · by_cases hp : r.patch_json.isEmpty
      · have hfil : (r :: rs).filter (fun r => !(r.version == 1) && !r.patch_json.isEmpty)
            = rs.filter (fun r => !(r.version == 1) && !r.patch_json.isEmpty) := by
          simp [List.filter_cons, hp]
        rw [hfil]
        rw [show reconstructStep st r = Except.ok st from by simp [reconstructStep, hv, hp]]
        rw [show ((Except.ok st : Except AuditError Json)
            >>= fun s => rs.foldlM reconstructStep s) = rs.foldlM reconstructStep st from rfl]
        exact foldlM_reconstructStep rs st
      · have hfil : (r :: rs).filter (fun r => !(r.version == 1) && !r.patch_json.isEmpty)
            = r :: rs.filter (fun r => !(r.version == 1) && !r.patch_json.isEmpty) := by
          simp [List.filter_cons, hv, hp]
        rw [hfil, List.map_cons]
        rw [show reconstructStep st r = apply_json_patch_exc st r.patch_json from by
          simp [reconstructStep, hv, hp]]
        cases happ : apply_json_patch st r.patch_json with
        | some st' =>
          rw [show apply_json_patch_exc st r.patch_json = Except.ok st' from by
            simp [apply_json_patch_exc, happ]]
          rw [show ((Except.ok st' : Except AuditError Json)
              >>= fun s => rs.foldlM reconstructStep s)
              = rs.foldlM reconstructStep st' from rfl]
          rw [show applyPatchSeq st (r.patch_json :: (rs.filter (fun r => !(r.version == 1)
              && !r.patch_json.isEmpty)).map (fun r => r.patch_json))
              = applyPatchSeq st' ((rs.filter (fun r => !(r.version == 1)
                && !r.patch_json.isEmpty)).map (fun r => r.patch_json)) from by
            simp [applyPatchSeq, happ]]
          exact foldlM_reconstructStep rs st'
        | none =>
          rw [show apply_json_patch_exc st r.patch_json
              = Except.error AuditError.cannotApplyPatch from by
            simp [apply_json_patch_exc, happ]]
          rw [show ((Except.error AuditError.cannotApplyPatch : Except AuditError Json)
              >>= fun s => rs.foldlM reconstructStep s)
              = Except.error AuditError.cannotApplyPatch from rfl]
          rw [show applyPatchSeq st (r.patch_json :: (rs.filter (fun r => !(r.version == 1)
              && !r.patch_json.isEmpty)).map (fun r => r.patch_json)) = none from by
            simp [applyPatchSeq, happ]]

/-- C5: the reconstruction query selects exactly the resource's rows with
`version <= target_version` ordered by `(version, ts, id)` ascending (the
sorted rows are a permutation of the selected rows); the result is absent when
no `created` row with a snapshot is among them; otherwise the state is seeded
from the first such row's snapshot and every selected row's patch is applied in
that order — rows with `version = 1` (and patchless rows) are skipped — and an
inapplicable patch makes the whole call raise `AuditError` with no partial
result. -/
theorem reconstruct_at_version_spec (table : List AuditRow)
    (resource resource_id : String) (target_version : Nat) :
    (sortRows (table.filter (reconSelect resource resource_id target_version))).Perm
      (table.filter (reconSelect resource resource_id target_version))
    ∧ (sortRows (table.filter (reconSelect resource resource_id
        target_version))).Pairwise (fun a b => auditRowLE a b = true)
    ∧ ((∀ r ∈ sortRows (table.filter (reconSelect resource resource_id target_version)),
        ¬(r.event_type = "created" ∧ r.snapshot.isSome = true)) →
        reconstruct_object_at_version table resource resource_id target_version
          = .ok none)
    ∧ (∀ r0 init,
        (sortRows (table.filter (reconSelect resource resource_id
          target_version))).find? createdWithSnapshot = some r0 →
        r0.snapshot = some init →
        reconstruct_object_at_version table resource resource_id target_version
          = match applyPatchSeq init
              (((sortRows (table.filter (reconSelect resource resource_id
                  target_version))).filter (fun r => !(r.version == 1)
                    && !r.patch_json.isEmpty)).map (fun r => r.patch_json)) with
            | some st => .ok (some st)
            | none => .error .cannotReconstruct) := by
  refine ⟨sortRows_perm _, sortRows_sorted _, ?_, ?_⟩
  · intro habs
    have hfind : (sortRows (table.filter (reconSelect resource resource_id
        target_version))).find? createdWithSnapshot = none := by
      apply List.find?_eq_none.mpr
      intro r hr hpred
      apply habs r hr
      have := (Bool.and_eq_true _ _).mp hpred
      exact ⟨by simpa using this.1, this.2⟩
    simp only [reconstruct_object_at_version, hfind, Option.bind, reconstructFrom]
    cases (sortRows (table.filter (reconSelect resource resource_id
        target_version))).isEmpty <;> rfl
  · intro r0 init hfind hsnap
    have hne : (sortRows (table.filter (reconSelect resource resource_id
        target_version))).isEmpty = false := by
      cases hl : sortRows (table.filter (reconSelect resource resource_id target_version)) with
      | nil => rw [hl] at hfind; exact absurd hfind (by simp)
      | cons x xs => rfl
    simp only [reconstruct_object_at_version, hne, hfind, Bool.false_eq_true, if_false]
    rw [show (some r0).bind (fun r => r.snapshot) = some init from by simp [hsnap]]
    rw [show reconstructFrom (sortRows (table.filter (reconSelect resource resource_id
        target_version))) (some init)
        = (match (sortRows (table.filter (reconSelect resource resource_id
            target_version))).foldlM reconstructStep init with
           | Except.ok st => Except.ok (some st)
           | Except.error _ => Except.error AuditError.cannotReconstruct) from by
      simp [reconstructFrom]]
    rw [foldlM_reconstructStep]
    cases applyPatchSeq init (((sortRows (table.filter (reconSelect resource resource_id
        target_version))).filter (fun r => !(r.version == 1)
          && !r.patch_json.isEmpty)).map (fun r => r.patch_json)) with
    | none => rfl
    | some st => rfl

/-- C5 witness: the spec's scenario — create `{"title": "A"}` at version 1,
patch to `{"title": "B"}` at version 2, reconstruct version 2. -/
theorem reconstruct_at_version_spec_spot :
    (sortRows (List.filter (reconSelect "pages" "x" 2)
        [{ id := 1, ts := 0, resource := "pages", resource_id := "x",
           event_type := "created", version := 1, patch_json := [],
           snapshot := some (.obj [("title", .str "A")]) },
         { id := 2, ts := 1, resource := "pages", resource_id := "x",
           event_type := "updated", version := 2,
           patch_json := [.replace [.key "title"] (.str "B")],
           snapshot := some (.obj [("title", .str "B")]) }])).find? createdWithSnapshot
      = some { id := 1, ts := 0, resource := "pages", resource_id := "x",
               event_type := "created", version := 1, patch_json := [],
               snapshot := some (.obj [("title", .str "A")]) }
    ∧ reconstruct_object_at_version
        [{ id := 1, ts := 0, resource := "pages", resource_id := "x",
           event_type := "created", version := 1, patch_json := [],
           snapshot := some (.obj [("title", .str "A")]) },
         { id := 2, ts := 1, resource := "pages", resource_id := "x",
           event_type := "updated", version := 2,
           patch_json := [.replace [.key "title"] (.str "B")],
           snapshot := some (.obj [("title", .str "B")]) }] "pages" "x" 2
      = .ok (some (.obj [("title", .str "B")])) := by
  refine ⟨rfl, ?_⟩
  rw [(reconstruct_at_version_spec
    [{ id := 1, ts := 0, resource := "pages", resource_id := "x",
       event_type := "created", version := 1, patch_json := [],
       snapshot := some (.obj [("title", .str "A")]) },
     { id := 2, ts := 1, resource := "pages", resource_id := "x",
       event_type := "updated", version := 2,
       patch_json := [.replace [.key "title"] (.str "B")],
       snapshot := some (.obj [("title", .str "B")]) }] "pages" "x" 2).2.2.2
    { id := 1, ts := 0, resource := "pages", resource_id := "x",
      event_type := "created", version := 1, patch_json := [],
      snapshot := some (.obj [("title", .str "A")]) }
    (.obj [("title", .str "A")]) rfl rfl]
  rfl

-- ===== C6: mark_processed =====

/-- C6: `mark_processed` sets `processed_at` exactly on the rows among the given
event ids that are currently unprocessed, returns the count of rows actually
updated (so already-processed rows are silently skipped), and a second call with
the same ids updates nothing: it returns count 0 and leaves every row
unchanged. -/
theorem mark_processed_idempotent (now1 now2 : Nat) (table : List OutboxRow)
    (ids : List Nat) :
    (mark_processed now1 table ids).1
      = (table.filter (fun r => ids.contains r.id && r.processed_at.isNone)).length
    ∧ (mark_processed now1 table ids).2
      = table.map (fun r =>
          if ids.contains r.id && r.processed_at.isNone
          then { r with processed_at := some now1 } else r)
    ∧ (mark_processed now2 (mark_processed now1 table ids).2 ids).1 = 0
    ∧ (mark_processed now2 (mark_processed now1 table ids).2 ids).2
      = (mark_processed now1 table ids).2 := by
  by_cases hids : ids.isEmpty
  · have hnil : ids = [] := List.isEmpty_iff.mp hids
    subst hnil
    simp [mark_processed]
  · have hne : ids.isEmpty = false := Bool.eq_false_iff.mpr hids
    have hmark : ∀ (nw : Nat) (t : List OutboxRow), mark_processed nw t ids
        = ((t.filter (fun r => ids.contains r.id && r.processed_at.isNone)).length,
           t.map (fun r =>
             if ids.contains r.id && r.processed_at.isNone
             then { r with processed_at := some nw } else r)) := by
      intro nw t
      simp [mark_processed, hne]
    have hmiss : ∀ r : OutboxRow,
        (ids.contains (if ids.contains r.id && r.processed_at.isNone
            then { r with processed_at := some now1 } else r).id
          && (if ids.contains r.id && r.processed_at.isNone
            then { r with processed_at := some now1 } else r).processed_at.isNone) = false := by
      intro r
      by_cases h : (ids.contains r.id && r.processed_at.isNone) = true
      · simp only [if_pos h]
        simp
      · simp only [if_neg h]
        exact Bool.eq_false_iff.mpr h
    have hmem : ∀ r ∈ (mark_processed now1 table ids).2,
        (ids.contains r.id && r.processed_at.isNone) = false := by
      intro r hr
      rw [hmark] at hr
      obtain ⟨r0, _, rfl⟩ := List.mem_map.mp hr
      exact hmiss r0
    have hfilter : (mark_processed now1 table ids).2.filter
        (fun r => ids.contains r.id && r.processed_at.isNone) = [] := by
      apply List.filter_eq_nil_iff.mpr
      intro r hr hin
      rw [hmem r hr] at hin
      exact Bool.false_ne_true hin
    refine ⟨by rw [hmark], by rw [hmark], ?_, ?_⟩
    · rw [hmark now2 (mark_processed now1 table ids).2]
      simp only [hfilter, List.length_nil]
    · rw [hmark now2 (mark_processed now1 table ids).2]
      have : ∀ r ∈ (mark_processed now1 table ids).2,
          (if ids.contains r.id && r.processed_at.isNone
           then { r with processed_at := some now2 } else r) = id r := by
        intro r hr
        simp only [id]
        rw [if_neg]
        intro hc
        rw [hmem r hr] at hc
        exact Bool.false_ne_true hc
      exact (List.map_congr_left this).trans (List.map_id _)

-- ===== C8: cleanup_processed_events =====

/-- C8: `cleanup_processed_events` only ever deletes rows (the survivors are a
sublist of the input), every unprocessed row present before the call is still
present unchanged afterwards regardless of its age, every deleted row was
processed and older than the retention cutoff, and the returned count is
exactly the number of deleted rows. -/
theorem cleanup_processed_events_frame (cutoff : Nat) (table : List OutboxRow) :
    ((cleanup_processed_events cutoff table).2).Sublist table
    ∧ (∀ r ∈ table, r.processed_at = none →
        r ∈ (cleanup_processed_events cutoff table).2)
    ∧ (∀ r ∈ table, r ∉ (cleanup_processed_events cutoff table).2 →
        ∃ t, r.processed_at = some t ∧ t < cutoff)
    ∧ (cleanup_processed_events cutoff table).1
        + ((cleanup_processed_events cutoff table).2).length = table.length := by
  refine ⟨List.filter_sublist table, ?_, ?_, ?_⟩
  · intro r hr hnone
    apply List.mem_filter.mpr
    refine ⟨hr, ?_⟩
    simp [cleanup_processed_events, hnone]
  · intro r hr habs
    match hpa : r.processed_at with
    | none =>
      exact absurd (List.mem_filter.mpr ⟨hr, by simp [cleanup_processed_events, hpa]⟩) habs
    | some t =>
      by_cases hlt : t < cutoff
      · exact ⟨t, rfl, hlt⟩
      · exact absurd (List.mem_filter.mpr ⟨hr, by simp [cleanup_processed_events, hpa, hlt]⟩) habs
  · simp only [cleanup_processed_events]
    exact (List.length_eq_length_filter_add _).symm

/-- C8 witness: concrete instantiation of `cleanup_processed_events_frame` — an
unprocessed row survives a cleanup that deletes an old processed row. -/
theorem cleanup_processed_events_frame_spot :
    ({ id := 1, ts := 0, site_id := "s", aggregate := "pages", aggregate_id := "x",
       event_type := "pages.created", payload := Json.null,
       processed_at := none : OutboxRow }).processed_at = none
    ∧ ({ id := 1, ts := 0, site_id := "s", aggregate := "pages", aggregate_id := "x",
         event_type := "pages.created", payload := Json.null,
         processed_at := none : OutboxRow })
        ∈ (cleanup_processed_events 10
            [{ id := 1, ts := 0, site_id := "s", aggregate := "pages", aggregate_id := "x",
               event_type := "pages.created", payload := Json.null, processed_at := none },
             { id := 2, ts := 0, site_id := "s", aggregate := "pages", aggregate_id := "x",
               event_type := "pages.created", payload := Json.null,
               processed_at := some 3 }]).2 :=
  ⟨rfl,
   (cleanup_processed_events_frame 10
      [{ id := 1, ts := 0, site_id := "s", aggregate := "pages", aggregate_id := "x",
         event_type := "pages.created", payload := Json.null, processed_at := none },
       { id := 2, ts := 0, site_id := "s", aggregate := "pages", aggregate_id := "x",
         event_type := "pages.created", payload := Json.null,
         processed_at := some 3 }]).2.1 _ (List.mem_cons_self _ _) rfl⟩

-- ===== C9: tenant cache invalidation =====

/-- Association lookup misses every key removed by the filter. -/
theorem assocGet_filter_ne {α : Type} (k : String) (l : List (String × α)) :
    assocGet k (l.filter (fun e => e.1 ≠ k)) = none := by
  induction l with
  | nil => rfl
  | cons e rest ih =>
    by_cases h : e.1 = k
    · simpa [List.filter, h] using ih
    · simpa [List.filter, h, assocGet] using ih

/-- Association write then read of the same key. -/
theorem assocGet_assocSet_self {α : Type} (k : String) (v : α)
    (l : List (String × α)) : assocGet k (assocSet k v l) = some v := by
  induction l with
  | nil => simp [assocSet, assocGet]
  | cons e rest ih =>
    by_cases h : e.1 = k
    · obtain ⟨a, b⟩ := e
      simp only at h
      simp [assocSet, assocGet, h]
    · obtain ⟨a, b⟩ := e
      simp only at h
      simpa [assocSet, assocGet, h] using ih

/-- C9: after `invalidate_cache host` the cache holds no entry for that host, so
the next `by_host host` misses the cache and returns exactly what the store
query returns, repopulating the cache on a store hit; `invalidate_cache` with no
host clears the whole cache. -/
theorem invalidate_cache_forces_store (ttl nowTs : Nat) (cache : SiteCacheMap)
    (db : List Site) (host : String) :
    assocGet host (invalidate_cache cache (some host)) = none
    ∧ (cache_get ttl nowTs (invalidate_cache cache (some host)) host).1 = none
    ∧ (by_host ttl nowTs (invalidate_cache cache (some host)) db host).1
        = db.find? (fun s => s.host == host)
    ∧ (∀ s, db.find? (fun s => s.host == host) = some s →
        assocGet host (by_host ttl nowTs (invalidate_cache cache (some host)) db host).2
          = some (s, nowTs))
    ∧ invalidate_cache cache none = [] := by
  have hmiss : assocGet host (invalidate_cache cache (some host)) = none := by
    by_cases hh : host = ""
    · simp [invalidate_cache, hh]; rfl
    · simpa [invalidate_cache, hh] using assocGet_filter_ne host cache
  have hget : cache_get ttl nowTs (invalidate_cache cache (some host)) host
      = (none, invalidate_cache cache (some host)) := by
    simp [cache_get, hmiss]
  refine ⟨hmiss, by rw [hget], ?_, ?_, rfl⟩
  · simp only [by_host, hget]
    cases hfind : db.find? (fun s => s.host == host) <;> simp [hfind]
  · intro s hs
    simp only [by_host, hget, hs]
    exact assocGet_assocSet_self host (s, nowTs) _

/-- C9 witness: concrete instantiation of `invalidate_cache_forces_store` — an
invalidated host misses the cache, is re-resolved from the store and
re-cached. -/
theorem invalidate_cache_forces_store_spot :
    List.find? (fun s => s.host == "h")
        [{ id := "1", uid := "u", name := "n", host := "h" : Site }]
      = some { id := "1", uid := "u", name := "n", host := "h" }
    ∧ assocGet "h"
        (by_host 60 5
          (invalidate_cache
            [("h", ({ id := "1", uid := "u", name := "n", host := "h" : Site }, 0))]
            (some "h"))
          [{ id := "1", uid := "u", name := "n", host := "h" }] "h").2
      = some ({ id := "1", uid := "u", name := "n", host := "h" }, 5) :=
  ⟨rfl,
   (invalidate_cache_forces_store 60 5
      [("h", ({ id := "1", uid := "u", name := "n", host := "h" }, 0))]
      [{ id := "1", uid := "u", name := "n", host := "h" }] "h").2.2.2.1
      { id := "1", uid := "u", name := "n", host := "h" } rfl⟩

-- ===== C7: unit-of-work site-context error wrapping =====

/-- C7 (code bug): `_set_site_context` does raise a distinct `SiteContextError`
on a read-back mismatch, but `write_uow` catches every exception from inside the
scope and re-raises a plain `UnitOfWorkError`, so the caller of the
unit-of-work scope never observes the distinct `SiteContextError` type —
contradicting both the claim and `write_uow`'s own docstring. -/
theorem write_uow_wraps_site_context_error :
    _set_site_context "site-a" false (some "other")
      = .error (.siteContextError "Cannot set site context: Site context verification failed")
    ∧ write_uow "site-a" false (some "other") (Except.ok (0 : Nat))
      = .error (.unitOfWorkError "Write transaction failed")
    ∧ read_uow "site-a" false (some "other") (Except.ok (0 : Nat))
      = .error (.unitOfWorkError "Read transaction failed") := by
  exact ⟨rfl, rfl, rfl⟩

-- ===== C2: idempotent replay loses the status code =====

/-- C2 (code bug): a COMPLETED record is replayed without re-executing the
handler and with the captured headers and body, but the replayed status code is
the hard-coded 200 of `to_response` — the original status code (201 here) is
never captured, so the replay is not verbatim. -/
theorem completed_replay_status_is_200 :
    (dispatch defaultConfig []
        { method := "POST", path := "/things", query := "a=1",
          headers := [("Idempotency-Key", "abc")], body := "payload" }
        (.success { status_code := 201,
                    headers := [("Content-Type", "application/json")],
                    body := "created" })).1
      = .response { status_code := 201,
                    headers := [("Content-Type", "application/json")],
                    body := "created" }
    ∧ (dispatch defaultConfig []
        { method := "POST", path := "/things", query := "a=1",
          headers := [("Idempotency-Key", "abc")], body := "payload" }
        (.success { status_code := 201,
                    headers := [("Content-Type", "application/json")],
                    body := "created" })).2.2 = true
    ∧ (dispatch defaultConfig
        ((dispatch defaultConfig []
          { method := "POST", path := "/things", query := "a=1",
            headers := [("Idempotency-Key", "abc")], body := "payload" }
          (.success { status_code := 201,
                      headers := [("Content-Type", "application/json")],
                      body := "created" })).2.1)
        { method := "POST", path := "/things", query := "a=1",
          headers := [("Idempotency-Key", "abc")], body := "payload" }
        .raised).2.2 = false
    ∧ (dispatch defaultConfig
        ((dispatch defaultConfig []
          { method := "POST", path := "/things", query := "a=1",
            headers := [("Idempotency-Key", "abc")], body := "payload" }
          (.success { status_code := 201,
                      headers := [("Content-Type", "application/json")],
                      body := "created" })).2.1)
        { method := "POST", path := "/things", query := "a=1",
          headers := [("Idempotency-Key", "abc")], body := "payload" }
        .raised).1
      = .response { status_code := 200,
                    headers := [("Content-Type", "application/json")],
                    body := "created" } := by
  exact ⟨rfl, rfl, rfl, rfl⟩

-- ===== C3: record_audit snapshot coalescing =====

/-- C3 counterexample: with `before = {"a": 1}` and `after = {}` the stored
snapshot is `before`, not the empty object the claim's null-coalescing reading
predicts — Python's `after or before or {}` coalesces on truthiness and the
empty dict is falsy. -/
theorem record_audit_empty_after_snapshot :
    (record_audit (some [("a", Json.num 1)]) (some [])).2 = [("a", Json.num 1)]
    ∧ ((record_audit (some [("a", Json.num 1)]) (some [])).2).isEmpty = false := by
  exact ⟨rfl, rfl⟩

/-- C3 (amended): the stored patch is `json_patch(before, after)` exactly when
both arguments are non-None and empty otherwise; the stored snapshot is the
truthiness-coalescing `after or before or {}`: it equals `after` when `after`
is non-None and non-empty, else `before` when non-None and non-empty, else the
empty object — so an empty-object `after` falls through to `before`. -/
theorem record_audit_patch_snapshot (before after : Option JsonObj) :
    (∀ b a, before = some b → after = some a →
      (record_audit before after).1 = json_patch (.obj b) (.obj a))
    ∧ (before = none ∨ after = none → (record_audit before after).1 = [])
    ∧ (∀ a, after = some a → a ≠ [] → (record_audit before after).2 = a)
    ∧ (∀ b, (after = none ∨ after = some []) → before = some b → b ≠ [] →
        (record_audit before after).2 = b)
    ∧ ((before = none ∨ before = some []) → (after = none ∨ after = some []) →
        (record_audit before after).2 = []) := by
  refine ⟨?_, ?_, ?_, ?_, ?_⟩
  · rintro b a rfl rfl
    rfl
  · rintro (rfl | rfl)
    · rfl
    · cases before <;> rfl
  · rintro a rfl ha
    have : pyTruthyObj (some a) = true := by
      simp [pyTruthyObj, List.isEmpty_iff, ha]
    simp [record_audit, this]
  · rintro b hafter rfl hb
    have hbt : pyTruthyObj (some b) = true := by
      simp [pyTruthyObj, List.isEmpty_iff, hb]
    rcases hafter with rfl | rfl
    · simp [record_audit, pyTruthyObj, hbt]
    · simp [record_audit, pyTruthyObj, hbt]
  · rintro (rfl | rfl) (rfl | rfl) <;> simp [record_audit, pyTruthyObj]

/-- C3 witness: concrete instantiation of `record_audit_patch_snapshot`. -/
theorem record_audit_patch_snapshot_spot :
    (record_audit (some [("a", Json.num 1)]) (some [("a", Json.num 2)])).1
      = json_patch (.obj [("a", Json.num 1)]) (.obj [("a", Json.num 2)])
    ∧ (record_audit (some [("a", Json.num 1)]) (some [("a", Json.num 2)])).2
      = [("a", Json.num 2)] :=
  ⟨(record_audit_patch_snapshot (some [("a", Json.num 1)]) (some [("a", Json.num 2)])).1
      _ _ rfl rfl,
   ((record_audit_patch_snapshot (some [("a", Json.num 1)]) (some [("a", Json.num 2)])).2.2.1)
      _ rfl (fun h => List.noConfusion h)⟩

-- ===== C4: idempotency claim race =====

/-- C4 counterexample: with a FAILED record stored under the normalized key,
`store_record` loses (returns `false`) because the row still exists, yet the
middleware does not reject: the handler body executes and its response is
returned, because the conflict branch additionally requires that no record
existed at check time. -/
theorem failed_record_claim_loss_executes :
    (store_record
        [(normalize_key "abc"
            { method := "POST", path := "/things", query := "",
              headers := [("Idempotency-Key", "abc")], body := "" },
          { key := normalize_key "abc"
              { method := "POST", path := "/things", query := "",
                headers := [("Idempotency-Key", "abc")], body := "" },
            status := .failed, headers := [], body := "" })]
        { key := normalize_key "abc"
            { method := "POST", path := "/things", query := "",
              headers := [("Idempotency-Key", "abc")], body := "" },
          status := .processing, headers := [], body := "" }).1 = false
    ∧ (dispatch defaultConfig
        [(normalize_key "abc"
            { method := "POST", path := "/things", query := "",
              headers := [("Idempotency-Key", "abc")], body := "" },
          { key := normalize_key "abc"
              { method := "POST", path := "/things", query := "",
                headers := [("Idempotency-Key", "abc")], body := "" },
            status := .failed, headers := [], body := "" })]
        { method := "POST", path := "/things", query := "",
          headers := [("Idempotency-Key", "abc")], body := "" }
        (.success { status_code := 200, headers := [], body := "ok" })).2.2 = true
    ∧ (dispatch defaultConfig
        [(normalize_key "abc"
            { method := "POST", path := "/things", query := "",
              headers := [("Idempotency-Key", "abc")], body := "" },
          { key := normalize_key "abc"
              { method := "POST", path := "/things", query := "",
                headers := [("Idempotency-Key", "abc")], body := "" },
            status := .failed, headers := [], body := "" })]
        { method := "POST", path := "/things", query := "",
          headers := [("Idempotency-Key", "abc")], body := "" }
        (.success { status_code := 200, headers := [], body := "ok" })).1
      = .response { status_code := 200, headers := [], body := "ok" } := by
  exact ⟨rfl, rfl, rfl⟩

/-- C4 (amended): `store_record` is an exclusive insert — it returns `false`
and leaves the store unchanged when the key already exists, and appends
otherwise; a losing claim is rejected with the 409 conflict without executing
the handler only when no record existed at the middleware's check; when a
(FAILED) record was seen at the check, the losing claim is ignored and the
handler body executes. -/
theorem store_record_exclusive_and_claim (store : IdempotencyStore)
    (key : String) (handler : HandlerResult) (rec : IdempotencyRecord) :
    ((storeLookup store rec.key).isSome → store_record store rec = (false, store))
    ∧ (storeLookup store rec.key = none →
        store_record store rec = (true, store ++ [(rec.key, rec)]))
    ∧ ((storeLookup store key).isSome →
        dispatch_claim key none store handler
          = (.response conflictResponse, store, false))
    ∧ (∀ r, (dispatch_claim key (some r) store handler).2.2 = true) := by
  refine ⟨?_, ?_, ?_, ?_⟩
  · intro h
    simp [store_record, h]
  · intro h
    simp [store_record, h]
  · intro h
    simp [dispatch_claim, store_record, h]
  · intro r
    have hne : (Option.some r).isNone = false := rfl
    by_cases h : (storeLookup store key).isSome
    · simp [dispatch_claim, store_record, h]
      cases handler with
      | raised => rfl
      | success resp =>
        by_cases hs : 200 ≤ resp.status_code ∧ resp.status_code < 300
        · simp [hs]
        · simp [hs]
    · simp only [Option.isSome] at h
      simp [dispatch_claim, store_record, h]
      cases handler with
      | raised => rfl
      | success resp =>
        by_cases hs : 200 ≤ resp.status_code ∧ resp.status_code < 300
        · simp [hs]
        · simp [hs]

/-- C4 witness: concrete instantiation of `store_record_exclusive_and_claim`. -/
theorem store_record_exclusive_and_claim_spot :
    store_record [("k", { key := "k", status := .failed, headers := [], body := "" })]
        { key := "k", status := .processing, headers := [], body := "" }
      = (false, [("k", { key := "k", status := .failed, headers := [], body := "" })])
    ∧ dispatch_claim "k" none
        [("k", { key := "k", status := .failed, headers := [], body := "" })]
        (.success { status_code := 200, headers := [], body := "ok" })
      = (.response conflictResponse,
         [("k", { key := "k", status := .failed, headers := [], body := "" })], false) :=
  ⟨(store_record_exclusive_and_claim
      [("k", { key := "k", status := .failed, headers := [], body := "" })]
      "k" (.success { status_code := 200, headers := [], body := "ok" })
      { key := "k", status := .processing, headers := [], body := "" }).1 (by decide),
   (store_record_exclusive_and_claim
      [("k", { key := "k", status := .failed, headers := [], body := "" })]
      "k" (.success { status_code := 200, headers := [], body := "ok" })
      { key := "k", status := .processing, headers := [], body := "" }).2.2.1 (by decide)⟩

-- ===== C10: key normalization determinism =====

/-- C10: `_normalize_key` is a deterministic function of exactly the HTTP
method, URL path, query string and the supplied idempotency key — two requests
agreeing on those produce the same normalized key whatever their other
contents. -/
theorem normalize_key_deterministic (r1 r2 : HttpRequest) (key : String)
    (hm : r1.method = r2.method) (hp : r1.path = r2.path)
    (hq : r1.query = r2.query) :
    normalize_key key r1 = normalize_key key r2 := by
  simp only [normalize_key, hm, hp, hq]

/-- C10 witness: two requests differing in headers and body but agreeing on
method, path and query get the same normalized key. -/
theorem normalize_key_deterministic_spot :
    normalize_key "abc"
      { method := "POST", path := "/things", query := "a=1",
        headers := [("X-Other", "1")], body := "b1" }
      = normalize_key "abc"
        { method := "POST", path := "/things", query := "a=1",
          headers := [], body := "b2" } :=
  normalize_key_deterministic
    { method := "POST", path := "/things", query := "a=1",
      headers := [("X-Other", "1")], body := "b1" }
    { method := "POST", path := "/things", query := "a=1",
      headers := [], body := "b2" }
    "abc" rfl rfl rfl

end FaServiceCore
